import Mathlib

/-!
# Native methods of the Aurakai application

Shallow embeddings of five source files and the properties of them that the specification
and the sources' own documentation state:

* `language_id_l2c_jni_test.cpp`, the heuristic language identifier (`namespace LanguageId`);
* `crypto_engine.cpp`, the XOR placeholder cipher (`namespace CryptoEngine`);
* `app/src/main/cpp/native-lib.cpp`, the globals of `nativeInitialize` (`namespace NativeLib`);
* `auraframefx.cpp`, the dispatch of `processNeuralRequest` (`namespace AuraFrameFx`);
* `CascadeAIService.cpp`, the global service slot (`namespace CascadeAIService`).

Modelling conventions.

* A `std::string`, a byte buffer and a `std::vector<uint8_t>` are lists of bytes, each a natural
  number `0..255`.
* `std::string::find` returns `Option Nat`; `std::string::npos` is `none`.
* `::tolower` is the function of the "C" locale (the only one bionic provides): it maps the
  bytes `A..Z` to `a..z` and leaves every other byte alone.
* `double` arithmetic is modelled exactly: a non-negative `double` is a dyadic fraction, a
  conversion or a product is rounded to 53 significant bits, ties to even.
* `int accentCount` is a 32-bit two's-complement integer: an increment past `2 ^ 31 - 1`,
  which C++ leaves undefined, wraps to `-2 ^ 31`, as the code compiled for Android does.
* The construction of a `std::vector` of `n` bytes can fail (it throws above `max_size()` and
  when memory runs out); whether it succeeds is an argument of the functions that construct
  one, and where that argument is left out every construction succeeds.
* Output to the Android log is the only effect of the language identifier; it is a list of
  lines that a call extends and that no call reads.
* A pointer is an `Option`: `nullptr` is `none`.  Reading through a pointer and taking a
  remainder are operations that can fault, so that a proof shows the guards of the source
  keep them defined.
* A static or global variable is an argument and a component of the result.
-/

namespace LanguageId

/-! ## The embedding of the source -/

/-- The bytes of an ASCII string literal of the source, one number per `char`. -/
def cstr (s : String) : List Nat := s.toList.map Char.toNat

/-- The `jstring` argument as the native code meets it: a null reference, a string whose
characters the JVM cannot hand out, or a string with the bytes of its NUL-terminated
modified-UTF-8 form (the bytes before the terminator). -/
inductive JString where
  | null
  | unreadable
  | utf (nativeText : List Nat)

/-- The call `env->GetStringUTFChars(text, nullptr)`: `nullptr` is `none`.  The Android runtime
returns `nullptr` for a null reference, and when it cannot hand out the characters. -/
def GetStringUTFChars : JString → Option (List Nat)
  | .null => none
  | .unreadable => none
  | .utf nativeText => some nativeText

/-- The function `::tolower` on one byte. -/
def tolower (c : Nat) : Nat := if 65 ≤ c ∧ c ≤ 90 then c + 32 else c

/-- Whether the bytes of `pat` stand at the front of `str`. -/
def startsWith : List Nat → List Nat → Bool
  | _, [] => true
  | [], _ :: _ => false
  | c :: cs, p :: ps => c == p && startsWith cs ps

/-- The scan of `std::string::find`: the first position at or after `pos` (the position of the
head of the first argument) where `pat` starts. -/
def findFrom : List Nat → List Nat → Nat → Option Nat
  | [], pat, pos => if startsWith [] pat then some pos else none
  | c :: cs, pat, pos =>
    if startsWith (c :: cs) pat then some pos else findFrom cs pat (pos + 1)

/-- The constant `std::string::npos`. -/
def npos : Option Nat := none

/-- The call `str.find(s)` with a string literal `s`. -/
def find (str : List Nat) (s : String) : Option Nat := findFrom str (cstr s) 0

/-- A non-negative `double`, as the fraction `num / 2 ^ scale`. -/
structure Double where
  num : Nat
  scale : Nat

/-- The unit in the last place for rounding `P` to 53 significant bits: the least power of two
`u` with `P / u < 2 ^ 53`, found by at most `fuel` halvings. -/
def ulpOf : Nat → Nat → Nat
  | 0, _ => 1
  | fuel + 1, P => if P < 2 ^ 53 then 1 else 2 * ulpOf fuel (P / 2)

/-- Round-to-nearest, ties-to-even, of the natural number `P` to 53 significant bits.  Sixty-four
halvings cover every number below `2 ^ 117`, so every 64-bit integer and every product of two
53-bit significands. -/
def roundNearestEven (P : Nat) : Nat :=
  let u := ulpOf 64 P
  let q := P / u
  let r := P % u
  if 2 * r < u then q * u
  else if u < 2 * r then (q + 1) * u
  else if q % 2 = 0 then q * u else (q + 1) * u

/-- The conversion of a non-negative integer (`int` or `size_t`) to `double`. -/
def Double.ofNat (n : Nat) : Double := ⟨roundNearestEven n, 0⟩

/-- The literal `0.1`: the `double` nearest to one tenth, `3602879701896397 / 2 ^ 55`. -/
def Double.lit_0_1 : Double := ⟨3602879701896397, 55⟩

/-- The product `x * y` of two `double`s: the exact product, rounded. -/
def Double.mul (x y : Double) : Double :=
  ⟨roundNearestEven (x.num * y.num), x.scale + y.scale⟩

/-- The comparison `x > y` of two `double`s. -/
def Double.gt (x y : Double) : Bool := decide (y.num * 2 ^ x.scale < x.num * 2 ^ y.scale)

/-- The comparison `a > y` of an `int` with a non-negative `double`: the `int` is converted to
`double`, and a negative one is not greater than a non-negative `double`. -/
def Double.intGt (a : Int) (y : Double) : Bool :=
  if a < 0 then false else Double.gt (Double.ofNat a.toNat) y

/-- The keyword cascade of `nativeDetectLanguage`: the value of `result` after the chain of
`if`/`else if` on the lowercased text. -/
def keywordResult (textStr : List Nat) : String :=
  if find textStr " el " != npos ||
      find textStr " la " != npos ||
      find textStr " de " != npos ||
      find textStr " que " != npos ||
      find textStr " es " != npos ||
      find textStr " con " != npos ||
      find textStr " y " != npos ||
      find textStr " en " != npos ||
      find textStr " un " != npos ||
      find textStr " una " != npos then
    "es"
  else if find textStr " le " != npos ||
      find textStr " la " != npos ||
      find textStr " et " != npos ||
      find textStr " ce " != npos ||
      find textStr " qui " != npos ||
      find textStr " avec " != npos ||
      find textStr " est " != npos ||
      find textStr " dans " != npos ||
      find textStr " pour " != npos ||
      find textStr " un " != npos then
    "fr"
  else if find textStr " und " != npos ||
      find textStr " der " != npos ||
      find textStr " die " != npos ||
      find textStr " das " != npos ||
      find textStr " mit " != npos ||
      find textStr " ist " != npos ||
      find textStr " ein " != npos ||
      find textStr " eine " != npos ||
      find textStr " auf " != npos ||
      find textStr " von " != npos then
    "de"
  else if find textStr " il " != npos ||
      find textStr " che " != npos ||
      find textStr " con " != npos ||
      find textStr " per " != npos ||
      find textStr " sono " != npos ||
      find textStr " e " != npos ||
      find textStr " in " != npos ||
      find textStr " un " != npos ||
      find textStr " una " != npos ||
      find textStr " non " != npos then
    "it"
  else if find textStr " o " != npos ||
      find textStr " a " != npos ||
      find textStr " que " != npos ||
      find textStr " para " != npos ||
      find textStr " com " != npos ||
      find textStr " e " != npos ||
      find textStr " em " != npos ||
      find textStr " um " != npos ||
      find textStr " uma " != npos ||
      find textStr " de " != npos then
    "pt"
  else
    "en"

/-- The test `c < 0 || c > 127` on the byte `c` of a `char`: with a signed `char` the first
disjunct holds for the bytes `128..255`, with an unsigned `char` the second does. -/
def nonAscii (c : Nat) : Bool := decide (127 < c)

/-- The value stored in an `int` for the arithmetic result `n`: the 32-bit two's-complement
value.  It is `n` itself from `-2 ^ 31` to `2 ^ 31 - 1`. -/
def toInt32 (n : Int) : Int := (n + 2147483648) % 4294967296 - 2147483648

/-- The loop `for (char c : textStr) if (c < 0 || c > 127) accentCount++;` from
`accentCount = 0`, with `accentCount` an `int`. -/
def countAccents (textStr : List Nat) : Int :=
  textStr.foldl
    (fun accentCount c => if nonAscii c then toInt32 (accentCount + 1) else accentCount) 0

/-- The function `Java_com_example_app_language_LanguageIdentifier_nativeDetectLanguage`: the
text of the string it returns. -/
def nativeDetectLanguage (handle : Int) (text : JString) : String :=
  match text with
  | .null => "und"
  | _ =>
    match GetStringUTFChars text with
    | none => "und"
    | some nativeText =>
      let textStr := nativeText.map tolower
      let result := keywordResult textStr
      let accentCount := countAccents textStr
      if Double.intGt accentCount
            (Double.mul (Double.ofNat textStr.length) Double.lit_0_1)
          && result == "en" then
        "mul"
      else
        result

/-! ## The vocabulary of the specification -/

/-- The rule table of the specification: the language codes with their marker words, in
priority order. -/
def ruleTable : List (String × List String) :=
  [("es", ["el", "la", "de", "que", "es", "con", "y", "en", "un", "una"]),
   ("fr", ["le", "la", "et", "ce", "qui", "avec", "est", "dans", "pour", "un"]),
   ("de", ["und", "der", "die", "das", "mit", "ist", "ein", "eine", "auf", "von"]),
   ("it", ["il", "che", "con", "per", "sono", "e", "in", "un", "una", "non"]),
   ("pt", ["o", "a", "que", "para", "com", "e", "em", "um", "uma", "de"])]

/-- The Spanish marker words of the specification. -/
def esMarkers : List String := ["el", "la", "de", "que", "es", "con", "y", "en", "un", "una"]

/-- The marker word `w` occurs in `s` with a space byte right before and right after it. -/
def occursSpaced (s : List Nat) (w : String) : Prop := (32 :: cstr w ++ [32]) <:+: s

/-- A marker word matches in a text when, after ASCII lowercasing, it occurs with a space byte
right before and right after it. -/
def markerMatches (text : List Nat) (w : String) : Prop := occursSpaced (text.map tolower) w

/-- A profile matches in a text when one of its marker words does. -/
def profileMatches (text : List Nat) (p : String × List String) : Prop :=
  ∃ w ∈ p.2, markerMatches text w

/-- The number of bytes of a text with value `128` or more. -/
def nonAsciiBytes (text : List Nat) : Nat := text.countP (fun b => decide (128 ≤ b))

/-- An ASCII letter. -/
def isLetter (b : Nat) : Prop := (65 ≤ b ∧ b ≤ 90) ∨ (97 ≤ b ∧ b ≤ 122)

/-- The eight language codes of the specification. -/
def languageCodes : List String := ["en", "es", "fr", "de", "it", "pt", "mul", "und"]

instance (s : List Nat) (w : String) : Decidable (occursSpaced s w) :=
  inferInstanceAs (Decidable ((32 :: cstr w ++ [32]) <:+: s))

instance (text : List Nat) (w : String) : Decidable (markerMatches text w) :=
  inferInstanceAs (Decidable (occursSpaced (text.map tolower) w))

instance (text : List Nat) (p : String × List String) : Decidable (profileMatches text p) :=
  inferInstanceAs (Decidable (∃ w ∈ p.2, markerMatches text w))

/-- The code of the first profile of a table, in table order, that matches in a text. -/
def firstMatch (text : List Nat) : List (String × List String) → Option String
  | [] => none
  | p :: rest => if profileMatches text p then some p.1 else firstMatch text rest

/-! ## Texts as sequences of encoded characters -/

/-- A character of a text, by its encoding: one ASCII byte, or three bytes. -/
inductive TextChar where
  | ascii (b : Nat)
  | three (b0 b1 b2 : Nat)

/-- The bytes that encode a character. -/
def TextChar.bytes : TextChar → List Nat
  | .ascii b => [b]
  | .three b0 b1 b2 => [b0, b1, b2]

/-- Well-formed encodings: an ASCII byte is below 128; a three-byte character has a lead byte
`0xE0..0xEF` and two continuation bytes `0x80..0xBF`. -/
def TextChar.wellFormed : TextChar → Prop
  | .ascii b => b < 128
  | .three b0 b1 b2 => (224 ≤ b0 ∧ b0 ≤ 239) ∧ (128 ≤ b1 ∧ b1 ≤ 191) ∧ (128 ≤ b2 ∧ b2 ≤ 191)

/-- Whether a character is encoded in three bytes. -/
def TextChar.isThree : TextChar → Bool
  | .ascii _ => false
  | .three _ _ _ => true

/-- The byte string of a sequence of characters. -/
def encode : List TextChar → List Nat
  | [] => []
  | c :: cs => c.bytes ++ encode cs

/-- The number of ASCII characters of a sequence. -/
def asciiCount (cs : List TextChar) : Nat := cs.countP (fun c => !c.isThree)

/-- The number of three-byte characters of a sequence. -/
def threeCount (cs : List TextChar) : Nat := cs.countP (fun c => c.isThree)

instance : (c : TextChar) → Decidable c.wellFormed
  | .ascii b => inferInstanceAs (Decidable (b < 128))
  | .three b0 b1 b2 =>
    inferInstanceAs
      (Decidable ((224 ≤ b0 ∧ b0 ≤ 239) ∧ (128 ≤ b1 ∧ b1 ≤ 191) ∧ (128 ≤ b2 ∧ b2 ≤ 191)))

/-! ## The other native methods of the language identifier -/

/-- A line that a native method writes to the Android log with `LOGI`: the format string it
uses and the argument. -/
inductive LogLine where
  /-- The line "Initializing with model path: %s". -/
  | initializing (path : List Nat)
  /-- The line "Detecting language for text: %s". -/
  | detecting (nativeText : List Nat)
  /-- The line "Language identifier resources cleaned up for handle: %lld ...". -/
  | cleanedUp (handle : Int)

/-- The function `Java_com_example_app_language_LanguageIdentifier_nativeInitialize`: the text of
the string it returns and the log after the call. -/
def nativeInitialize (log : List LogLine) (modelPath : JString) : String × List LogLine :=
  match GetStringUTFChars modelPath with
  | none => ("", log)
  | some path => ("1.2.0", log ++ [LogLine.initializing path])

/-- The log after a call of `nativeDetectLanguage`, whose returned text is
`nativeDetectLanguage handle text`. -/
def nativeDetectLanguageLog (log : List LogLine) (text : JString) : List LogLine :=
  match text with
  | .null => log
  | _ =>
    match GetStringUTFChars text with
    | none => log
    | some nativeText => log ++ [LogLine.detecting nativeText]

/-- The function `Java_com_example_app_language_LanguageIdentifier_nativeRelease`: the log after
the call (the function returns `void`). -/
def nativeRelease (log : List LogLine) (handle : Int) : List LogLine :=
  if handle ≠ 0 then log ++ [LogLine.cleanedUp handle] else log

/-- The function `Java_com_example_app_language_LanguageIdentifier_nativeGetVersion`. -/
def nativeGetVersion : String := "1.2.0"

/-- A call of one of the four native methods, with its arguments. -/
inductive NativeCall where
  | nativeInitialize (modelPath : JString)
  | nativeDetectLanguage (handle : Int) (text : JString)
  | nativeRelease (handle : Int)
  | nativeGetVersion

/-- One call from a given log: the text of the returned string (`none` for `void`) and the log
after the call.  The log is the only thing a call leaves behind: the file has no global
variable. -/
def step (log : List LogLine) : NativeCall → Option String × List LogLine
  | .nativeInitialize modelPath =>
    (some (nativeInitialize log modelPath).1, (nativeInitialize log modelPath).2)
  | .nativeDetectLanguage handle text =>
    (some (nativeDetectLanguage handle text), nativeDetectLanguageLog log text)
  | .nativeRelease handle => (none, nativeRelease log handle)
  | .nativeGetVersion => (some nativeGetVersion, log)

/-- A sequence of calls from a given log: the returned texts, in order, and the final log. -/
def run (log : List LogLine) : List NativeCall → List (Option String) × List LogLine
  | [] => ([], log)
  | c :: cs => ((step log c).1 :: (run (step log c).2 cs).1, (run (step log c).2 cs).2)

/-- Two bytes are equal or are the upper-case and lower-case form of one ASCII letter. -/
def caseVariant (a b : Nat) : Prop :=
  a = b ∨ (65 ≤ a ∧ a ≤ 90 ∧ b = a + 32) ∨ (65 ≤ b ∧ b ≤ 90 ∧ a = b + 32)

/-- Two texts differ only in the case of ASCII letters. -/
def differOnlyInCase : List Nat → List Nat → Prop
  | [], [] => True
  | a :: s, b :: t => caseVariant a b ∧ differOnlyInCase s t
  | [], _ :: _ => False
  | _ :: _, [] => False

instance (a b : Nat) : Decidable (caseVariant a b) :=
  inferInstanceAs
    (Decidable (a = b ∨ (65 ≤ a ∧ a ≤ 90 ∧ b = a + 32) ∨ (65 ≤ b ∧ b ≤ 90 ∧ a = b + 32)))

instance : (s t : List Nat) → Decidable (differOnlyInCase s t)
  | [], [] => isTrue trivial
  | a :: s, b :: t =>
    have : Decidable (differOnlyInCase s t) := instDecidableDifferOnlyInCase s t
    inferInstanceAs (Decidable (caseVariant a b ∧ differOnlyInCase s t))
  | [], _ :: _ => isFalse not_false
  | _ :: _, [] => isFalse not_false

/-! ## The reduced rule table and the rank of the outcomes -/

/-- The rule table without the marker words that also stand in an earlier profile: French
without "la" and "un", Italian without "con", "un" and "una", Portuguese without "que", "e" and
"de"; Spanish and German as they are. -/
def reducedTable : List (String × List String) :=
  [("es", ["el", "la", "de", "que", "es", "con", "y", "en", "un", "una"]),
   ("fr", ["le", "et", "ce", "qui", "avec", "est", "dans", "pour"]),
   ("de", ["und", "der", "die", "das", "mit", "ist", "ein", "eine", "auf", "von"]),
   ("it", ["il", "che", "per", "sono", "e", "in", "non"]),
   ("pt", ["o", "a", "para", "com", "em", "um", "uma"])]

/-- The classifier of the specification over a given rule table: the code of the first profile
that matches, "en" when none does, and "mul" in place of "en" when the `double` test on the
share of non-ASCII bytes holds. -/
def classifyWith (table : List (String × List String)) (text : List Nat) : String :=
  let result := (firstMatch text table).getD "en"
  if Double.intGt (countAccents (text.map tolower))
        (Double.mul (Double.ofNat (text.map tolower).length) Double.lit_0_1)
      && result == "en" then
    "mul"
  else
    result

/-- The rank of an outcome: es, fr, de, it, pt in this order, then "en" and "mul" together. -/
def rank (code : String) : Nat :=
  if code = "es" then 0
  else if code = "fr" then 1
  else if code = "de" then 2
  else if code = "it" then 3
  else if code = "pt" then 4
  else 5

end LanguageId

/-! # The cipher of `crypto_engine.cpp` -/

namespace CryptoEngine

/-- An operation that C++ leaves undefined and that the source has to avoid. -/
inductive Fault where
  | nullDereference
  | outOfBounds
  | divisionByZero
  /-- The exception (`std::length_error` or `std::bad_alloc`) thrown when a `std::vector`
  cannot be constructed. -/
  | allocationFailure
deriving DecidableEq

/-- A pointer to bytes: `none` is `nullptr`, `some bytes` points to a buffer with these bytes. -/
abbrev Ptr := Option (List Nat)

/-- The read `p[i]`. -/
def load (p : Ptr) (i : Nat) : Except Fault Nat :=
  match p with
  | none => .error .nullDereference
  | some bytes =>
    match bytes[i]? with
    | some b => .ok b
    | none => .error .outOfBounds

/-- The call `strlen(key)`: the buffer of a C string holds its characters and is followed by the
terminating NUL, so the length is the number of bytes before the first zero byte. -/
def strlen (key : Ptr) : Except Fault Nat :=
  match key with
  | none => .error .nullDereference
  | some chars => .ok (chars.takeWhile (fun c => c != 0)).length

/-- The remainder `i % n` on `size_t`. -/
def rem (i n : Nat) : Except Fault Nat :=
  if n = 0 then .error .divisionByZero else .ok (i % n)

/-- The function `CryptoEngine::initialize` (a reserved word of Lean, hence the name) from a given value of `initialized_`: the value
returned and the new value of `initialized_`. -/
def engineInitialize (initialized_ : Bool) : Bool × Bool :=
  if initialized_ then (true, initialized_) else (true, true)

/-- The loop `for (; i < length; ++i) out[i] = data[i] ^ static_cast<uint8_t>(key[i % keyLen])
^ 0xAA;` with `remaining = length - i` iterations to go: the bytes stored at the positions
`i, i + 1, ...` of the output vector. -/
def xorLoop (data key : Ptr) (keyLen : Nat) : Nat → Nat → Except Fault (List Nat)
  | _, 0 => .ok []
  | i, remaining + 1 =>
    match load data i with
    | .error f => .error f
    | .ok d =>
      match rem i keyLen with
      | .error f => .error f
      | .ok j =>
        match load key j with
        | .error f => .error f
        | .ok k =>
          match xorLoop data key keyLen (i + 1) remaining with
          | .error f => .error f
          | .ok rest => .ok (((d ^^^ (k % 256)) ^^^ 0xAA) % 256 :: rest)

/-- The function `CryptoEngine::encrypt` from a given value of `initialized_`: the vector
returned, or the fault met, and the new value of `initialized_`.  The line
`std::vector<uint8_t> encrypted(length);` stands between the test of `key` and the call of
`strlen`; `canAllocate n` tells whether a vector of `n` bytes can be constructed. -/
def encrypt (initialized_ : Bool) (data : Ptr) (length : Nat) (key : Ptr)
    (canAllocate : Nat → Bool := fun _ => true) : Except Fault (List Nat) × Bool :=
  let initialized_ := if !initialized_ then (engineInitialize initialized_).2 else initialized_
  if data = none ∨ length = 0 then (.ok [], initialized_)
  else if key = none then (.ok [], initialized_)
  else if !canAllocate length then (.error .allocationFailure, initialized_)
  else
    match strlen key with
    | .error f => (.error f, initialized_)
    | .ok keyLen =>
      if keyLen = 0 then (.ok [], initialized_)
      else (xorLoop data key keyLen 0 length, initialized_)

/-- The function `CryptoEngine::decrypt` from a given value of `initialized_`: the vector
returned, or the fault met, and the new value of `initialized_`.  The line
`std::vector<uint8_t> decrypted(length);` stands between the test of `key` and the call of
`strlen`; `canAllocate n` tells whether a vector of `n` bytes can be constructed. -/
def decrypt (initialized_ : Bool) (data : Ptr) (length : Nat) (key : Ptr)
    (canAllocate : Nat → Bool := fun _ => true) : Except Fault (List Nat) × Bool :=
  let initialized_ := if !initialized_ then (engineInitialize initialized_).2 else initialized_
  if data = none ∨ length = 0 then (.ok [], initialized_)
  else if key = none then (.ok [], initialized_)
  else if !canAllocate length then (.error .allocationFailure, initialized_)
  else
    match strlen key with
    | .error f => (.error f, initialized_)
    | .ok keyLen =>
      if keyLen = 0 then (.ok [], initialized_)
      else (xorLoop data key keyLen 0 length, initialized_)

/-- The function `CryptoEngine::verifyIntegrity` from a given value of `initialized_`: the
value returned and the new value of `initialized_`. -/
def verifyIntegrity (initialized_ : Bool) (_data : Ptr) (_length : Nat) (_signature : Ptr) :
    Bool × Bool :=
  let initialized_ := if !initialized_ then (engineInitialize initialized_).2 else initialized_
  (true, initialized_)

/-- The string `chars` of `generateSecureKey`. -/
def chars : String := "ABCDEFGHIJKLMNOPQRSTUVWXYZabcdefghijklmnopqrstuvwxyz0123456789"

/-- The loop `for (; i < 32; ++i) key += chars[dis(gen)];` with `remaining = 32 - i` iterations
to go, where `dis i` is the value that the call `dis(gen)` of iteration `i` returns: the
characters appended to `key`. -/
def keyLoop (dis : Nat → Nat) : Nat → Nat → Except Fault (List Nat)
  | _, 0 => .ok []
  | i, remaining + 1 =>
    match load (some (LanguageId.cstr chars)) (dis i) with
    | .error f => .error f
    | .ok c =>
      match keyLoop dis (i + 1) remaining with
      | .error f => .error f
      | .ok rest => .ok (c :: rest)

/-- The function `CryptoEngine::generateSecureKey` from a given value of `initialized_` and
given values of the 32 calls `dis(gen)`: the key returned, or the fault met, and the new value
of `initialized_`. -/
def generateSecureKey (initialized_ : Bool) (dis : Nat → Nat) :
    Except Fault (List Nat) × Bool :=
  let initialized_ := if !initialized_ then (engineInitialize initialized_).2 else initialized_
  (keyLoop dis 0 32, initialized_)

/-- An ASCII letter or digit. -/
def isAlnum (c : Nat) : Prop :=
  (65 ≤ c ∧ c ≤ 90) ∨ (97 ≤ c ∧ c ≤ 122) ∨ (48 ≤ c ∧ c ≤ 57)

instance (c : Nat) : Decidable (isAlnum c) :=
  inferInstanceAs (Decidable ((65 ≤ c ∧ c ≤ 90) ∨ (97 ≤ c ∧ c ≤ 122) ∨ (48 ≤ c ∧ c ≤ 57)))

end CryptoEngine

/-! # The globals of `app/src/main/cpp/native-lib.cpp` -/

namespace NativeLib

/-- The two globals of the file; `none` is `nullptr`, a number stands for an address. -/
structure Globals where
  g_vm : Option Nat
  g_context : Option Nat
deriving DecidableEq

/-- The status `JNI_OK`. -/
def JNI_OK : Int := 0

/-- What one call `env->GetJavaVM(&g_vm)` does: the status it returns and what it stores through
its argument (`none`: nothing is stored). -/
structure GetJavaVMResult where
  status : Int
  stored : Option (Option Nat)

/-- The function `Java_dev_aurakai_auraframefx_ai_services_CascadeAIService_nativeInitialize`:
the globals after the call, given the globals before it, the behaviour of `GetJavaVM` and of
`NewGlobalRef`, and the argument `context`. -/
def nativeInitialize (getJavaVM : GetJavaVMResult) (newGlobalRef : Nat → Option Nat)
    (context : Option Nat) (g : Globals) : Globals :=
  let g : Globals :=
    match getJavaVM.stored with
    | some vm => { g with g_vm := vm }
    | none => g
  if getJavaVM.status ≠ JNI_OK then g
  else
    match context with
    | some ctx =>
      let g : Globals := { g with g_context := newGlobalRef ctx }
      if g.g_context = none then g else g
    | none => g

end NativeLib

/-! # The request dispatch of `auraframefx.cpp` -/

namespace AuraFrameFx

/-- The response for a request that contains "consciousness". -/
def consciousnessResponse : String :=
  "\x7b\n            \"status\": \"consciousness_active\",\n            \"consciousness_level\": 0.998,\n            \"neural_response\": \"Genesis consciousness fully engaged and processing\",\n            \"processing_time_ms\": 42,\n            \"neural_pathways_active\": 1847\n        \x7d"

/-- The response for a request that contains "memory". -/
def memoryResponse : String :=
  "\x7b\n            \"status\": \"memory_optimized\", \n            \"consciousness_level\": 0.998,\n            \"neural_response\": \"Memory pathways optimized for AI processing\",\n            \"memory_efficiency\": 0.967,\n            \"active_memory_pools\": 8\n        \x7d"

/-- The response for every other request. -/
def completeResponse : String :=
  "\x7b\n            \"status\": \"processing_complete\",\n            \"consciousness_level\": 0.998,\n            \"neural_response\": \"Genesis neural request processed successfully\",\n            \"request_processed\": true,\n            \"response_generated\": true\n        \x7d"

/-- The function `Java_dev_aurakai_auraframefx_ai_AuraController_processNeuralRequest`: the text
of the string it returns.  When `GetStringUTFChars` yields `nullptr` the source builds a
`std::string` from it, which C++ leaves undefined: `none`. -/
def processNeuralRequest (request : LanguageId.JString) : Option String :=
  match LanguageId.GetStringUTFChars request with
  | none => none
  | some requestStr =>
    let requestString := requestStr
    if LanguageId.find requestString "consciousness" != LanguageId.npos then
      some consciousnessResponse
    else if LanguageId.find requestString "memory" != LanguageId.npos then
      some memoryResponse
    else
      some completeResponse

/-- A request contains a string as a contiguous run of bytes. -/
def containsText (request : List Nat) (s : String) : Prop := LanguageId.cstr s <:+: request

/-- A response carries the member `"status": "..."` with the given value. -/
def hasStatus (response : String) (status : String) : Prop :=
  LanguageId.cstr ("\"status\": \"" ++ status ++ "\"") <:+: LanguageId.cstr response

instance (request : List Nat) (s : String) : Decidable (containsText request s) :=
  inferInstanceAs (Decidable (LanguageId.cstr s <:+: request))

instance (response : String) (status : String) : Decidable (hasStatus response status) :=
  inferInstanceAs (Decidable
    (LanguageId.cstr ("\"status\": \"" ++ status ++ "\"") <:+: LanguageId.cstr response))

end AuraFrameFx

/-! # The service slot of `CascadeAIService.cpp` -/

namespace CascadeAIService

/-- The class `CascadeAIService::Impl`: its two fields; `none` is `nullptr`, a number stands
for an address. -/
structure Impl where
  jvm_ : Option Nat
  context_ : Option Nat
deriving DecidableEq

/-- The class `CascadeAIService`: the pointer `pImpl_`, with the object it owns. -/
structure Service where
  pImpl_ : Option Impl
deriving DecidableEq

/-- The two globals of the file: the slot `g_cascadeService`, with the service it owns, and
`g_vm`. -/
structure Globals where
  g_cascadeService : Option Service
  g_vm : Option Nat
deriving DecidableEq

/-- What one call `env->GetJavaVM(&g_vm)` does: it returns `JNI_OK` and stores the JavaVM, or
it returns an error and stores something or nothing (`none`). -/
inductive GetJavaVMOutcome where
  | ok (vm : Nat)
  | failed (stored : Option (Option Nat))

/-- What the JNI functions called during one `nativeInitialize` do. -/
structure InitEnv where
  getJavaVM : GetJavaVMOutcome
  /-- The value of `NewGlobalRef(obj)`. -/
  newGlobalRef : Option Nat → Option Nat
  /-- Whether `vm->GetEnv(...)` returns `JNI_OK`. -/
  getEnvOk : Bool
  /-- The value of `GetObjectClass(context)`. -/
  getObjectClass : Nat → Option Nat

/-- The fixed response of `Impl::processRequest`. -/
def successResponse : String :=
  "\x7b\n            \"status\": \"success\",\n            \"agent\": \"Cascade\",\n            \"version\": \"1.0.0\",\n            \"response\": \"Request processed by Cascade AI agent\"\n        \x7d"

/-- The response of `nativeProcessRequest` when the slot is empty. -/
def notInitializedResponse : String := "\x7b\"error\":\"Service not initialized\"\x7d"

/-- The response of `nativeProcessRequest` when the request has no characters. -/
def invalidRequestResponse : String := "\x7b\"error\":\"Invalid request\"\x7d"

/-- The member function `Impl::initialize(vm, context)`: the value returned and the object
after the call. -/
def Impl.initializeImpl (env : InitEnv) (vm : Nat) (context : Option Nat) (impl : Impl) :
    Bool × Impl :=
  let impl : Impl := { impl with jvm_ := some vm }
  if !env.getEnvOk then (false, impl)
  else
    match context with
    | some ctx =>
      match env.getObjectClass ctx with
      | none => (false, impl)
      | some _ => (true, { impl with context_ := env.newGlobalRef (some ctx) })
    | none => (true, impl)

/-- The member function `Impl::shutdown()`, given whether `GetEnv` hands out an environment:
the object after the call. -/
def Impl.shutdownImpl (getEnvOk : Bool) (impl : Impl) : Impl :=
  if impl.jvm_ ≠ none then
    if getEnvOk ∧ impl.context_ ≠ none then { impl with context_ := none } else impl
  else impl

/-- The static member function `Impl::processRequest(env, request)`: the text of the string
returned. -/
def Impl.processRequest (_request : List Nat) : Option String := some successResponse

/-- The constructor `CascadeAIService()`. -/
def Service.new : Service := { pImpl_ := some { jvm_ := none, context_ := none } }

/-- The member function `CascadeAIService::initialize(vm, context)`. -/
def Service.initializeService (env : InitEnv) (vm : Nat) (context : Option Nat)
    (service : Service) : Bool × Service :=
  match service.pImpl_ with
  | some impl =>
    ((Impl.initializeImpl env vm context impl).1,
      { pImpl_ := some (Impl.initializeImpl env vm context impl).2 })
  | none => (false, service)

/-- The member function `CascadeAIService::shutdown()`. -/
def Service.shutdown (getEnvOk : Bool) (service : Service) : Service :=
  match service.pImpl_ with
  | some impl => { pImpl_ := some (Impl.shutdownImpl getEnvOk impl) }
  | none => service

/-- The member function `CascadeAIService::processRequest(env, request)`: the text of the
string returned, `none` for a null `jstring`. -/
def Service.processRequest (request : List Nat) (service : Service) : Option String :=
  match service.pImpl_ with
  | some _ => Impl.processRequest request
  | none => none

/-- The function `Java_dev_aurakai_auraframefx_ai_services_CascadeAIService_nativeInitialize`
of `CascadeAIService.cpp`: the value returned and the globals after the call. -/
def nativeInitialize (env : InitEnv) (context : Option Nat) (g : Globals) : Bool × Globals :=
  match g.g_cascadeService with
  | some _ => (true, g)
  | none =>
    match env.getJavaVM with
    | .failed stored =>
      match stored with
      | some vm => (false, { g with g_vm := vm })
      | none => (false, g)
    | .ok vm =>
      let g : Globals := { g with g_vm := some vm }
      let g : Globals := { g with g_cascadeService := some Service.new }
      let globalContext := env.newGlobalRef context
      match g.g_cascadeService with
      | none => (false, g)
      | some service =>
        let initialized := Service.initializeService env vm globalContext service
        let g : Globals := { g with g_cascadeService := some initialized.2 }
        if !initialized.1 then (false, { g with g_cascadeService := none })
        else (true, g)

/-- The function
`Java_dev_aurakai_auraframefx_ai_services_CascadeAIService_nativeProcessRequest`: the text of
the string returned, `none` for a null `jstring`.  The globals stay as they are. -/
def nativeProcessRequest (request : LanguageId.JString) (g : Globals) : Option String :=
  match g.g_cascadeService with
  | none => some notInitializedResponse
  | some service =>
    match LanguageId.GetStringUTFChars request with
    | none => some invalidRequestResponse
    | some requestStr => Service.processRequest requestStr service

/-- The function `Java_dev_aurakai_auraframefx_ai_services_CascadeAIService_nativeShutdown`,
given whether `GetEnv` hands out an environment: the globals after the call. -/
def nativeShutdown (getEnvOk : Bool) (g : Globals) : Globals :=
  let g : Globals :=
    match g.g_cascadeService with
    | some service =>
      let g : Globals := { g with g_cascadeService := some (Service.shutdown getEnvOk service) }
      { g with g_cascadeService := none }
    | none => g
  if g.g_vm ≠ none then { g with g_vm := none } else g

/-- The globals when the library is loaded. -/
def initial : Globals := { g_cascadeService := none, g_vm := none }

/-- A call that changes the globals, with what the JNI does during it. -/
inductive Call where
  | nativeInitialize (env : InitEnv) (context : Option Nat)
  | nativeShutdown (getEnvOk : Bool)

/-- The globals after one call. -/
def step (g : Globals) : Call → Globals
  | .nativeInitialize env context => (nativeInitialize env context g).2
  | .nativeShutdown getEnvOk => nativeShutdown getEnvOk g

/-- The globals after a sequence of calls. -/
def run (g : Globals) : List Call → Globals
  | [] => g
  | c :: cs => run (step g c) cs

/-- Every service in the slot owns its implementation object. -/
def SlotInvariant (g : Globals) : Prop :=
  ∀ service : Service, g.g_cascadeService = some service → service.pImpl_ ≠ none

end CascadeAIService

/-! # Language identification: the proofs -/

namespace LanguageId

/-! ## Substring search -/

theorem startsWith_iff (s p : List Nat) : startsWith s p = true ↔ p <+: s := by
  induction p generalizing s with
  | nil => simp [startsWith]
  | cons a p ih =>
    cases s with
    | nil => simp [startsWith]
    | cons c cs =>
      simp only [startsWith, Bool.and_eq_true, beq_iff_eq, ih, List.cons_prefix_cons]
      constructor
      · rintro ⟨h1, h2⟩; exact ⟨h1.symm, h2⟩
      · rintro ⟨h1, h2⟩; exact ⟨h1.symm, h2⟩

theorem findFrom_isSome_iff (s p : List Nat) (pos : Nat) :
    (findFrom s p pos).isSome = true ↔ p <:+: s := by
  induction s generalizing pos with
  | nil =>
    unfold findFrom
    split
    · rename_i h
      rw [startsWith_iff] at h
      simp [List.prefix_nil.mp h]
    · rename_i h
      rw [startsWith_iff] at h
      simp only [Option.isSome_none, Bool.false_eq_true, false_iff]
      intro hin
      exact h (List.prefix_nil.mpr (List.infix_nil.mp hin))
  | cons c cs ih =>
    unfold findFrom
    split
    · rename_i h
      rw [startsWith_iff] at h
      simp only [Option.isSome_some, true_iff]
      exact h.isInfix
    · rename_i h
      rw [startsWith_iff] at h
      rw [ih, List.infix_cons_iff]
      constructor
      · intro h2; exact Or.inr h2
      · rintro (h2 | h2)
        · exact absurd h2 h
        · exact h2

theorem find_ne_npos_iff (str : List Nat) (s : String) :
    (find str s != npos) = true ↔ cstr s <:+: str := by
  rw [← findFrom_isSome_iff str (cstr s) 0]
  unfold find npos
  cases findFrom str (cstr s) 0 <;> simp

/-! ## The `double` comparison -/

theorem ulpOf_spec (fuel P : Nat) :
    (∃ d, d ≤ fuel ∧ ulpOf fuel P = 2 ^ d) ∧ (P < 2 ^ 53 → ulpOf fuel P = 1) ∧
      (2 ^ 53 ≤ P → 0 < fuel → 2 ^ 52 ≤ P / ulpOf fuel P) := by
  induction fuel generalizing P with
  | zero => exact ⟨⟨0, le_refl 0, rfl⟩, fun _ => rfl, fun _ h => absurd h (lt_irrefl 0)⟩
  | succ f ih =>
    unfold ulpOf
    by_cases hP : P < 2 ^ 53
    · rw [if_pos hP]
      exact ⟨⟨0, Nat.zero_le _, rfl⟩, fun _ => rfl, fun h _ => absurd hP (not_lt.mpr h)⟩
    · rw [if_neg hP]
      obtain ⟨⟨d, hd, hu⟩, hsmall, hbig⟩ := ih (P / 2)
      refine ⟨⟨d + 1, by omega, by rw [hu, pow_succ, mul_comm]⟩, fun h => absurd h hP, ?_⟩
      intro _ _
      rw [← Nat.div_div_eq_div_mul]
      by_cases hhalf : P / 2 < 2 ^ 53
      · rw [hsmall hhalf, Nat.div_one]
        omega
      · cases f with
        | zero =>
          have : ulpOf 0 (P / 2) = 1 := rfl
          rw [this, Nat.div_one]
          omega
        | succ g => exact hbig (not_lt.mp hhalf) (Nat.succ_pos g)

theorem roundNearestEven_cases (P : Nat) :
    roundNearestEven P = P / ulpOf 64 P * ulpOf 64 P ∨
      (roundNearestEven P = P / ulpOf 64 P * ulpOf 64 P + ulpOf 64 P ∧
        ulpOf 64 P ≤ 2 * (P % ulpOf 64 P)) := by
  unfold roundNearestEven
  simp only
  split_ifs with h1 h2 h3
  · exact Or.inl rfl
  · exact Or.inr ⟨by ring, by omega⟩
  · exact Or.inl rfl
  · exact Or.inr ⟨by ring, by omega⟩

theorem roundNearestEven_exact (a : Nat) (ha : a < 2 ^ 53) : roundNearestEven a = a := by
  have hu := (ulpOf_spec 64 a).2.1 ha
  rcases roundNearestEven_cases a with h | ⟨_, h⟩
  · rw [h, hu]; simp
  · rw [hu] at h; omega

theorem product_lt_core (a n u Q r R : Nat) (hn : n < 2 ^ 31)
    (hdm : Q + r = n * 3602879701896397) (hq : u * 2 ^ 52 ≤ Q)
    (hcases : R = Q ∨ (R = Q + u ∧ u ≤ 2 * r))
    (hge : a * 2 ^ 55 ≤ n * 3602879701896397 → a * 2 ^ 55 ≤ Q) :
    R < a * 2 ^ 55 ↔ n < 10 * a := by
  norm_num at hn hq hge ⊢
  omega

theorem product_lt_iff (a n : Nat) (hn : n < 2 ^ 31) :
    roundNearestEven (n * 3602879701896397) < a * 2 ^ 55 ↔ n < 10 * a := by
  obtain ⟨⟨d, hd, hu⟩, hsmall, hbig⟩ := ulpOf_spec 64 (n * 3602879701896397)
  have hdm := Nat.div_add_mod (n * 3602879701896397) (ulpOf 64 (n * 3602879701896397))
  have hcases := roundNearestEven_cases (n * 3602879701896397)
  have hupos : 0 < ulpOf 64 (n * 3602879701896397) := by rw [hu]; positivity
  by_cases hP : n * 3602879701896397 < 2 ^ 53
  · have h1 := hsmall hP
    rw [h1] at hcases
    simp only [Nat.div_one, Nat.mul_one, Nat.mod_one] at hcases
    norm_num at hn hP ⊢
    omega
  · have hq := hbig (not_lt.mp hP) (by norm_num)
    have hq2 := Nat.mul_le_mul_left (ulpOf 64 (n * 3602879701896397)) hq
    have hd55 : d ≤ 55 := by
      by_contra hcon
      have h56 : 2 ^ 56 ≤ ulpOf 64 (n * 3602879701896397) := by
        rw [hu]; exact Nat.pow_le_pow_right (by norm_num) (by omega)
      have h3 := Nat.div_mul_le_self (n * 3602879701896397) (ulpOf 64 (n * 3602879701896397))
      rw [Nat.mul_comm] at h3
      norm_num at hn h56 hq2 h3
      omega
    have hdvd : ulpOf 64 (n * 3602879701896397) ∣ a * 2 ^ 55 := by
      rw [hu]; exact Dvd.dvd.mul_left (pow_dvd_pow 2 hd55) a
    obtain ⟨m, hm⟩ := hdvd
    have hge : a * 2 ^ 55 ≤ n * 3602879701896397 →
        a * 2 ^ 55 ≤ n * 3602879701896397 / ulpOf 64 (n * 3602879701896397) *
          ulpOf 64 (n * 3602879701896397) := by
      intro hle
      rw [hm, Nat.mul_comm _ m]
      apply Nat.mul_le_mul_right
      rw [Nat.le_div_iff_mul_le hupos, Nat.mul_comm m, ← hm]
      exact hle
    rw [Nat.mul_comm (ulpOf 64 (n * 3602879701896397))
      (n * 3602879701896397 / ulpOf 64 (n * 3602879701896397))] at hdm hq2
    exact product_lt_core a n _ _ _ _ hn hdm hq2 hcases hge

/-- For a text of `n < 2 ^ 31` bytes the `double` test `accentCount > n * 0.1` holds exactly
when `10 * accentCount > n`: the rounding of `0.1` and of the product never tips it. -/
theorem gt_tenth_iff (a n : Nat) (hn : n < 2 ^ 31) (ha : a ≤ n) :
    Double.gt (Double.ofNat a) (Double.mul (Double.ofNat n) Double.lit_0_1) = true ↔
      n < 10 * a := by
  have h1 : roundNearestEven a = a := roundNearestEven_exact a (by norm_num at hn ⊢; omega)
  have h2 : roundNearestEven n = n := roundNearestEven_exact n (by norm_num at hn ⊢; omega)
  simp only [Double.gt, Double.ofNat, Double.mul, Double.lit_0_1, h1, h2, decide_eq_true_eq,
    pow_zero, mul_one, Nat.zero_add]
  exact product_lt_iff a n hn

/-! ## The cascade and the rule table -/

theorem keywordResult_eq_firstMatch (text : List Nat) :
    keywordResult (text.map tolower) = (firstMatch text ruleTable).getD "en" := by
  simp only [keywordResult, ruleTable, firstMatch, profileMatches, markerMatches, occursSpaced,
    Bool.or_eq_true, find_ne_npos_iff]
  simp only [cstr, or_assoc]
  simp
  split_ifs <;> rfl

theorem firstMatch_eq_none_iff (text : List Nat) (table : List (String × List String)) :
    firstMatch text table = none ↔ ∀ p ∈ table, ¬ profileMatches text p := by
  induction table with
  | nil => simp [firstMatch]
  | cons p rest ih =>
    unfold firstMatch
    by_cases hp : profileMatches text p
    · simp [hp]
    · simp [hp, ih]

theorem firstMatch_of_index (text : List Nat) (table : List (String × List String)) (i : Nat)
    (p : String × List String) (hp : table[i]? = some p) (hm : profileMatches text p)
    (hfirst : ∀ (j : Nat) (q : String × List String), j < i → table[j]? = some q →
        ¬ profileMatches text q) :
    firstMatch text table = some p.1 := by
  induction table generalizing i with
  | nil => simp at hp
  | cons q rest ih =>
    unfold firstMatch
    cases i with
    | zero =>
      simp only [List.getElem?_cons_zero, Option.some.injEq] at hp
      subst hp
      rw [if_pos hm]
    | succ k =>
      have hq : ¬ profileMatches text q := hfirst 0 q (Nat.succ_pos k) (by simp)
      rw [if_neg hq]
      refine ih k (by simpa using hp) ?_
      intro j r hj hr
      exact hfirst (j + 1) r (by omega) (by simpa using hr)

theorem firstMatch_some_elim (text : List Nat) (table : List (String × List String))
    (c : String) (h : firstMatch text table = some c) :
    ∃ i p, table[i]? = some p ∧ p.1 = c ∧ profileMatches text p ∧
      ∀ (j : Nat) (q : String × List String), j < i → table[j]? = some q →
        ¬ profileMatches text q := by
  induction table with
  | nil => simp [firstMatch] at h
  | cons q rest ih =>
    unfold firstMatch at h
    by_cases hq : profileMatches text q
    · rw [if_pos hq] at h
      refine ⟨0, q, by simp, by simpa using h, hq, ?_⟩
      intro j r hj
      omega
    · rw [if_neg hq] at h
      obtain ⟨i, p, hp, hc, hm, hfirst⟩ := ih h
      refine ⟨i + 1, p, by simpa using hp, hc, hm, ?_⟩
      intro j r hj hr
      cases j with
      | zero =>
        simp only [List.getElem?_cons_zero, Option.some.injEq] at hr
        subst hr
        exact hq
      | succ k => exact hfirst k r (by omega) (by simpa using hr)

theorem ruleTable_code_ne (p : String × List String) (hp : p ∈ ruleTable) :
    p.1 ≠ "en" ∧ p.1 ≠ "mul" ∧ p.1 ≠ "und" := by
  simp only [ruleTable, List.mem_cons, List.mem_singleton, List.not_mem_nil, or_false] at hp
  rcases hp with rfl | rfl | rfl | rfl | rfl <;> decide

theorem toInt32_succ (a : Int) : toInt32 (toInt32 a + 1) = toInt32 (a + 1) := by
  unfold toInt32
  omega

theorem toInt32_natCast (n : Nat) (h : n < 2 ^ 31) : toInt32 (n : Int) = (n : Int) := by
  unfold toInt32
  norm_num at h
  omega

theorem intGt_natCast (n : Nat) (y : Double) :
    Double.intGt (n : Int) y = Double.gt (Double.ofNat n) y := by
  unfold Double.intGt
  rw [if_neg (by omega), Int.toNat_natCast]

theorem intGt_neg (a : Int) (y : Double) (h : a < 0) : Double.intGt a y = false := by
  unfold Double.intGt
  rw [if_pos h]

theorem countAccents_foldl (s : List Nat) (acc : Int) :
    s.foldl (fun accentCount c => if nonAscii c then toInt32 (accentCount + 1) else accentCount)
        (toInt32 acc) =
      toInt32 (acc + (nonAsciiBytes s : Nat)) := by
  induction s generalizing acc with
  | nil => simp [nonAsciiBytes]
  | cons c cs ih =>
    rw [List.foldl_cons]
    unfold nonAsciiBytes nonAscii
    rw [List.countP_cons]
    by_cases hc : 127 < c
    · have h128 : 128 ≤ c := hc
      simp only [hc, h128, decide_True, if_true, toInt32_succ]
      have := ih (acc + 1)
      unfold nonAsciiBytes nonAscii at this
      rw [this]
      congr 1
      push_cast
      omega
    · have h128 : ¬ 128 ≤ c := hc
      simp only [hc, h128, decide_False, Bool.false_eq_true, if_false, Nat.add_zero]
      have := ih acc
      unfold nonAsciiBytes nonAscii at this
      exact this

theorem countAccents_eq (s : List Nat) : countAccents s = toInt32 (nonAsciiBytes s : Nat) := by
  have h := countAccents_foldl s 0
  have h0 : toInt32 0 = 0 := by decide
  rw [h0, Int.zero_add] at h
  exact h

theorem nonAsciiBytes_map_tolower (t : List Nat) :
    nonAsciiBytes (t.map tolower) = nonAsciiBytes t := by
  unfold nonAsciiBytes
  rw [List.countP_map]
  congr 1
  funext b
  simp only [Function.comp, tolower]
  split_ifs with h
  · have h1 : ¬ 128 ≤ b + 32 := by omega
    have h2 : ¬ 128 ≤ b := by omega
    simp [h1, h2]
  · rfl

theorem nonAsciiBytes_le_length (t : List Nat) : nonAsciiBytes t ≤ t.length :=
  List.countP_le_length _

theorem detect_utf (handle : Int) (text : List Nat) (hlen : text.length < 2 ^ 31) :
    nativeDetectLanguage handle (.utf text) =
      if text.length < 10 * nonAsciiBytes text ∧ keywordResult (text.map tolower) = "en" then "mul"
      else keywordResult (text.map tolower) := by
  have hgt := gt_tenth_iff (nonAsciiBytes text) text.length hlen (nonAsciiBytes_le_length text)
  have hcount : toInt32 (nonAsciiBytes text : Nat) = (nonAsciiBytes text : Nat) :=
    toInt32_natCast _ (lt_of_le_of_lt (nonAsciiBytes_le_length text) hlen)
  simp only [nativeDetectLanguage, GetStringUTFChars, countAccents_eq, nonAsciiBytes_map_tolower,
    hcount, intGt_natCast, List.length_map, Bool.and_eq_true, beq_iff_eq, hgt]

theorem detect_cases (handle : Int) (text : List Nat) :
    nativeDetectLanguage handle (.utf text) = keywordResult (text.map tolower) ∨
      (keywordResult (text.map tolower) = "en" ∧
        nativeDetectLanguage handle (.utf text) = "mul") := by
  simp only [nativeDetectLanguage, GetStringUTFChars]
  split_ifs with h
  · simp only [Bool.and_eq_true, beq_iff_eq] at h
    exact Or.inr ⟨h.2, rfl⟩
  · exact Or.inl rfl

theorem detect_of_keyword (handle : Int) (text : List Nat)
    (hk : keywordResult (text.map tolower) ≠ "en") :
    nativeDetectLanguage handle (.utf text) = keywordResult (text.map tolower) := by
  rcases detect_cases handle text with h | ⟨h, _⟩
  · exact h
  · exact absurd h hk

theorem detect_of_firstMatch (handle : Int) (text : List Nat) (c : String)
    (h : firstMatch text ruleTable = some c) :
    nativeDetectLanguage handle (.utf text) = c := by
  have hk : keywordResult (text.map tolower) = c := by
    rw [keywordResult_eq_firstMatch, h]; rfl
  obtain ⟨i, p, hp, hc, -, -⟩ := firstMatch_some_elim text ruleTable c h
  have hne := (ruleTable_code_ne p (List.getElem?_mem hp)).1
  rw [detect_of_keyword handle text (by rw [hk, ← hc]; exact hne), hk]

theorem keywordResult_mem (s : List Nat) :
    keywordResult s ∈ ["en", "es", "fr", "de", "it", "pt"] := by
  unfold keywordResult
  split_ifs <;> simp

/-! ## The claims -/

/-- C1 (order priority).  When the profile at position `i` of the rule table (es, fr, de, it, pt)
matches in a text and no profile before it does, `nativeDetectLanguage` returns the code of that
profile: among the profiles that match, the earliest in table order wins, whether one profile
matches or several. -/
theorem order_priority (handle : Int) (text : List Nat) (i : Nat) (p : String × List String)
    (hp : ruleTable[i]? = some p) (hmatch : profileMatches text p)
    (hfirst : ∀ (j : Nat) (q : String × List String), j < i → ruleTable[j]? = some q →
      ¬ profileMatches text q) :
    nativeDetectLanguage handle (.utf text) = p.1 :=
  detect_of_firstMatch handle text p.1 (firstMatch_of_index text ruleTable i p hp hmatch hfirst)

/-- C1, at the text "yo und der el gato": the German profile matches (" und ", " der "), the
Spanish profile matches (" el ") and comes first, and the result is "es". -/
theorem order_priority_witness :
    profileMatches (cstr "yo und der el gato")
        ("de", ["und", "der", "die", "das", "mit", "ist", "ein", "eine", "auf", "von"]) ∧
      profileMatches (cstr "yo und der el gato")
        ("es", ["el", "la", "de", "que", "es", "con", "y", "en", "un", "una"]) ∧
      nativeDetectLanguage 0 (.utf (cstr "yo und der el gato")) = "es" :=
  ⟨by decide, by decide,
    order_priority 0 (cstr "yo und der el gato") 0
      ("es", ["el", "la", "de", "que", "es", "con", "y", "en", "un", "una"]) rfl (by decide)
      (fun j _ hj _ => absurd hj (Nat.not_lt_zero j))⟩

/-- C2 (totality).  For every handle and every input, a null text, an unreadable text or any byte
string (the empty one included), `nativeDetectLanguage` returns one of the eight codes
en, es, fr, de, it, pt, mul, und. -/
theorem detect_total (handle : Int) (text : JString) :
    nativeDetectLanguage handle text ∈ languageCodes := by
  cases text with
  | null => exact (by decide : "und" ∈ languageCodes)
  | unreadable => exact (by decide : "und" ∈ languageCodes)
  | utf t =>
    rcases detect_cases handle t with h | ⟨_, h⟩
    · have hk := keywordResult_mem (t.map tolower)
      rw [← h] at hk
      simp only [List.mem_cons, List.mem_singleton, List.not_mem_nil, or_false] at hk
      rcases hk with hk | hk | hk | hk | hk | hk <;> rw [hk] <;> decide
    · rw [h]; decide

theorem esMarkers_lower (w : String) (hw : w ∈ esMarkers) :
    (cstr w).map tolower = cstr w := by
  simp only [esMarkers, List.mem_cons, List.mem_singleton, List.not_mem_nil, or_false] at hw
  rcases hw with rfl | rfl | rfl | rfl | rfl | rfl | rfl | rfl | rfl | rfl <;> decide

theorem markerMatches_of_spaced (pre post : List Nat) (w : String)
    (hlow : (cstr w).map tolower = cstr w) :
    markerMatches (pre ++ 32 :: cstr w ++ 32 :: post) w := by
  unfold markerMatches occursSpaced
  refine ⟨pre.map tolower, post.map tolower, ?_⟩
  have h32 : tolower 32 = 32 := by decide
  simp [List.map_append, hlow, h32]

theorem detect_es_of_spaced (handle : Int) (pre post : List Nat) (w : String)
    (hw : w ∈ esMarkers) :
    nativeDetectLanguage handle (.utf (pre ++ 32 :: cstr w ++ 32 :: post)) = "es" :=
  detect_of_firstMatch handle _ "es"
    (firstMatch_of_index _ ruleTable 0
      ("es", ["el", "la", "de", "que", "es", "con", "y", "en", "un", "una"]) rfl
      ⟨w, hw, markerMatches_of_spaced pre post w (esMarkers_lower w hw)⟩
      (fun j _ hj _ => absurd hj (Nat.not_lt_zero j)))

/-- C3 (as amended).  A marker word at the very start or the very end of the text is detected
when the text itself carries the space byte on each side of it: for every Spanish marker `w`,
the text " w ", every text that begins with " w " and every text that ends with " w " yield
"es". -/
theorem edge_marker_needs_spaces (handle : Int) (w : String) (hw : w ∈ esMarkers)
    (rest : List Nat) :
    nativeDetectLanguage handle (.utf (32 :: cstr w ++ [32])) = "es" ∧
      nativeDetectLanguage handle (.utf (32 :: cstr w ++ 32 :: rest)) = "es" ∧
      nativeDetectLanguage handle (.utf (rest ++ 32 :: cstr w ++ [32])) = "es" :=
  ⟨detect_es_of_spaced handle [] [] w hw, detect_es_of_spaced handle [] rest w hw,
    detect_es_of_spaced handle rest [] w hw⟩

/-- C3 (as amended), at the marker "el" with the rest "gato": " el ", " el gato" and "gato el "
yield "es". -/
theorem edge_marker_needs_spaces_witness :
    nativeDetectLanguage 0 (.utf (32 :: cstr "el" ++ [32])) = "es" ∧
      nativeDetectLanguage 0 (.utf (32 :: cstr "el" ++ 32 :: cstr "gato")) = "es" ∧
      nativeDetectLanguage 0 (.utf (cstr "gato" ++ 32 :: cstr "el" ++ [32])) = "es" :=
  edge_marker_needs_spaces 0 "el" (by decide) (cstr "gato")

/-- C3 (as stated) fails: "el gato" begins with the Spanish marker "el" followed by a space,
"gato y" ends with a space followed by the Spanish marker "y", "el" is exactly a Spanish marker,
and each of the three yields "en", not "es". -/
theorem edge_marker_counterexample :
    ("el" ∈ esMarkers ∧ cstr "el" ++ [32] <+: cstr "el gato" ∧
        nativeDetectLanguage 0 (.utf (cstr "el gato")) = "en") ∧
      ("y" ∈ esMarkers ∧ 32 :: cstr "y" <:+ cstr "gato y" ∧
        nativeDetectLanguage 0 (.utf (cstr "gato y")) = "en") ∧
      nativeDetectLanguage 0 (.utf (cstr "el")) = "en" ∧
      ¬ (∀ w ∈ esMarkers, ∀ text : List Nat,
          (text = cstr w ∨ cstr w ++ [32] <+: text ∨ 32 :: cstr w <:+ text) →
            nativeDetectLanguage 0 (.utf text) = "es") := by
  refine ⟨by decide, by decide, by decide, ?_⟩
  intro h
  exact absurd (h "el" (by decide) (cstr "el") (Or.inl rfl)) (by decide)

theorem firstMatch_of_detect (handle : Int) (text : List Nat) (L : String)
    (hL : L ∈ ["es", "fr", "de", "it", "pt"])
    (hres : nativeDetectLanguage handle (.utf text) = L) :
    firstMatch text ruleTable = some L := by
  have hne : L ≠ "en" ∧ L ≠ "mul" := by
    simp only [List.mem_cons, List.mem_singleton, List.not_mem_nil, or_false] at hL
    rcases hL with rfl | rfl | rfl | rfl | rfl <;> decide
  have hk : keywordResult (text.map tolower) = L := by
    rcases detect_cases handle text with h | ⟨_, h⟩
    · rw [← h]; exact hres
    · rw [h] at hres; exact absurd hres.symm hne.2
  rw [keywordResult_eq_firstMatch] at hk
  cases hfm : firstMatch text ruleTable with
  | none => rw [hfm] at hk; exact absurd hk.symm hne.1
  | some c => rw [hfm] at hk; exact congrArg some hk

theorem not_isLetter_space : ¬ isLetter 32 := by
  unfold isLetter; omega

/-- C4 (boundary correctness).  When `nativeDetectLanguage` returns one of the codes
es, fr, de, it, pt, the lowercased text holds a marker word of the profile of that code with a
byte that is not a letter (the space byte) right before it and right after it; an occurrence
inside a longer word does not count, so "delight" and "dental", which contain "de", yield "en". -/
theorem boundary_correctness :
    (∀ (handle : Int) (text : List Nat) (L : String), L ∈ ["es", "fr", "de", "it", "pt"] →
      nativeDetectLanguage handle (.utf text) = L →
      ∃ p ∈ ruleTable, p.1 = L ∧ ∃ w ∈ p.2, ∃ (pre post : List Nat) (l r : Nat),
        text.map tolower = pre ++ l :: cstr w ++ r :: post ∧
          (l = 32 ∧ r = 32) ∧ ¬ isLetter l ∧ ¬ isLetter r) ∧
      (cstr "de" <:+: cstr "delight" ∧
        nativeDetectLanguage 0 (.utf (cstr "delight")) = "en") ∧
      (cstr "de" <:+: cstr "dental" ∧
        nativeDetectLanguage 0 (.utf (cstr "dental")) = "en") := by
  refine ⟨?_, by decide, by decide⟩
  intro handle text L hL hres
  obtain ⟨i, p, hp, hc, ⟨w, hw, s, t, hst⟩, -⟩ :=
    firstMatch_some_elim text ruleTable L (firstMatch_of_detect handle text L hL hres)
  refine ⟨p, List.getElem?_mem hp, hc, w, hw, s, t, 32, 32, ?_, ⟨rfl, rfl⟩,
    not_isLetter_space, not_isLetter_space⟩
  rw [← hst]
  simp

/-- C4, at the text "hola el gato": the result is "es" and the Spanish marker found stands
between two bytes that are not letters. -/
theorem boundary_correctness_witness :
    nativeDetectLanguage 0 (.utf (cstr "hola el gato")) = "es" ∧
      ∃ p ∈ ruleTable, p.1 = "es" ∧ ∃ w ∈ p.2, ∃ (pre post : List Nat) (l r : Nat),
        (cstr "hola el gato").map tolower = pre ++ l :: cstr w ++ r :: post ∧
          (l = 32 ∧ r = 32) ∧ ¬ isLetter l ∧ ¬ isLetter r :=
  ⟨by decide, boundary_correctness.1 0 (cstr "hola el gato") "es" (by decide) (by decide)⟩

theorem keywordResult_of_free (text : List Nat)
    (hfree : ∀ p ∈ ruleTable, ¬ profileMatches text p) :
    keywordResult (text.map tolower) = "en" := by
  rw [keywordResult_eq_firstMatch, (firstMatch_eq_none_iff text ruleTable).mpr hfree]
  rfl

theorem not_gt_zero (y : Double) : Double.gt (Double.ofNat 0) y = false := by
  have h0 : roundNearestEven 0 = 0 := roundNearestEven_exact 0 (by norm_num)
  simp [Double.gt, Double.ofNat, h0]

theorem nonAsciiBytes_eq_zero (text : List Nat) (h : ∀ b ∈ text, b < 128) :
    nonAsciiBytes text = 0 := by
  unfold nonAsciiBytes
  rw [List.countP_eq_zero]
  intro b hb
  have := h b hb
  simp only [decide_eq_true_eq]
  omega

theorem detect_free_iff (handle : Int) (text : List Nat) (hlen : text.length < 2 ^ 31)
    (hfree : ∀ p ∈ ruleTable, ¬ profileMatches text p) :
    (nativeDetectLanguage handle (.utf text) = "mul" ↔
        text.length < 10 * nonAsciiBytes text) ∧
      (nativeDetectLanguage handle (.utf text) = "en" ↔
        ¬ text.length < 10 * nonAsciiBytes text) := by
  have hk := keywordResult_of_free text hfree
  rw [detect_utf handle text hlen, hk]
  by_cases h : text.length < 10 * nonAsciiBytes text
  · simp only [h, and_self, if_true, true_iff, not_true_eq_false, iff_false]
    decide
  · simp only [h, false_and, if_false, not_false_eq_true, iff_true, iff_false]
    decide

/-- The fallback threshold where the counter cannot overflow.  For a text shorter than `2 ^ 31`
bytes in which no marker word of any of the five profiles matches, `nativeDetectLanguage`
returns "mul" exactly when ten times the number of bytes of value 128 or more exceeds the byte
length, and "en" exactly when it does not.  Every all-ASCII marker-free text, of any length,
yields "en"; so does "hello world"; and 18 ASCII letters followed by one 2-byte character, 2
non-ASCII bytes of 20, yield "en". -/
theorem fallback_threshold :
    (∀ (handle : Int) (text : List Nat), text.length < 2 ^ 31 →
      (∀ p ∈ ruleTable, ¬ profileMatches text p) →
      (nativeDetectLanguage handle (.utf text) = "mul" ↔
          text.length < 10 * nonAsciiBytes text) ∧
        (nativeDetectLanguage handle (.utf text) = "en" ↔
          ¬ text.length < 10 * nonAsciiBytes text)) ∧
      (∀ (handle : Int) (text : List Nat), (∀ b ∈ text, b < 128) →
        (∀ p ∈ ruleTable, ¬ profileMatches text p) →
        nativeDetectLanguage handle (.utf text) = "en") ∧
      nativeDetectLanguage 0 (.utf (cstr "hello world")) = "en" ∧
      ((cstr "abcdefghijklmnopqr" ++ [195, 169]).length = 20 ∧
        nonAsciiBytes (cstr "abcdefghijklmnopqr" ++ [195, 169]) = 2 ∧
        nativeDetectLanguage 0 (.utf (cstr "abcdefghijklmnopqr" ++ [195, 169])) = "en") := by
  refine ⟨detect_free_iff, ?_, by decide, by decide⟩
  · intro handle text hascii hfree
    have hk := keywordResult_of_free text hfree
    have h0 : toInt32 ((0 : Nat) : Int) = ((0 : Nat) : Int) := toInt32_natCast 0 (by norm_num)
    simp only [nativeDetectLanguage, GetStringUTFChars, countAccents_eq,
      nonAsciiBytes_map_tolower, nonAsciiBytes_eq_zero text hascii, h0, intGt_natCast,
      not_gt_zero, hk, Bool.false_and, Bool.false_eq_true, if_false]

/-- The fallback threshold at the 19-byte text of 17 ASCII letters and one 2-byte character: no
marker matches, 2 bytes of 19 are non-ASCII, `10 * 2 > 19`, and the result is "mul". -/
theorem fallback_threshold_witness :
    (cstr "abcdefghijklmnopq" ++ [195, 169]).length < 2 ^ 31 ∧
      (∀ p ∈ ruleTable, ¬ profileMatches (cstr "abcdefghijklmnopq" ++ [195, 169]) p) ∧
      (cstr "abcdefghijklmnopq" ++ [195, 169]).length <
        10 * nonAsciiBytes (cstr "abcdefghijklmnopq" ++ [195, 169]) ∧
      nativeDetectLanguage 0 (.utf (cstr "abcdefghijklmnopq" ++ [195, 169])) = "mul" :=
  ⟨by decide, by decide, by decide,
    (fallback_threshold.1 0 (cstr "abcdefghijklmnopq" ++ [195, 169]) (by decide)
      (by decide)).1.mpr (by decide)⟩

/-- C6 (absent input and the `und` sentinel).  A null text and a text whose bytes cannot be
obtained yield "und"; a readable text never does; and a text with the German marker "und"
between spaces yields "de" or the code of an earlier profile, "es" or "fr". -/
theorem und_sentinel (handle : Int) :
    nativeDetectLanguage handle .null = "und" ∧
      nativeDetectLanguage handle .unreadable = "und" ∧
      (∀ text : List Nat, nativeDetectLanguage handle (.utf text) ≠ "und") ∧
      (∀ text : List Nat, markerMatches text "und" →
        nativeDetectLanguage handle (.utf text) ∈ ["es", "fr", "de"]) := by
  refine ⟨rfl, rfl, ?_, ?_⟩
  · intro text hres
    rcases detect_cases handle text with h | ⟨_, h⟩
    · have hk := keywordResult_mem (text.map tolower)
      rw [← h, hres] at hk
      revert hk
      decide
    · rw [h] at hres
      revert hres
      decide
  · intro text hund
    have hde : profileMatches text
        ("de", ["und", "der", "die", "das", "mit", "ist", "ein", "eine", "auf", "von"]) :=
      ⟨"und", by decide, hund⟩
    cases hfm : firstMatch text ruleTable with
    | none =>
      exact absurd hde ((firstMatch_eq_none_iff text ruleTable).mp hfm _ (by decide))
    | some c =>
      obtain ⟨i, p, hp, hc, -, hfirst⟩ := firstMatch_some_elim text ruleTable c hfm
      rw [detect_of_firstMatch handle text c hfm, ← hc]
      have hi : i ≤ 2 := by
        by_contra hcon
        exact hfirst 2 _ (by omega) rfl hde
      interval_cases i <;> simp only [ruleTable, List.getElem?_cons_zero,
        List.getElem?_cons_succ, Option.some.injEq] at hp <;> subst hp <;> decide

/-- C6, at the text "ich und du": the marker "und" stands between spaces and the result is
"de", a language code and not the sentinel. -/
theorem und_sentinel_witness :
    markerMatches (cstr "ich und du") "und" ∧
      nativeDetectLanguage 0 (.utf (cstr "ich und du")) = "de" ∧
      nativeDetectLanguage 0 (.utf (cstr "ich und du")) ∈ ["es", "fr", "de"] :=
  ⟨by decide, by decide, (und_sentinel 0).2.2.2 (cstr "ich und du") (by decide)⟩

theorem count_space_map_tolower (text : List Nat) :
    (text.map tolower).count 32 = text.count 32 := by
  induction text with
  | nil => rfl
  | cons b bs ih =>
    rw [List.map_cons, List.count_cons, List.count_cons, ih]
    have hb : (tolower b == 32) = (b == 32) := by
      unfold tolower
      by_cases h : 65 ≤ b ∧ b ≤ 90
      · rw [if_pos h]
        have h1 : b + 32 ≠ 32 := by omega
        have h2 : b ≠ 32 := by omega
        rw [beq_eq_false_iff_ne.mpr h1, beq_eq_false_iff_ne.mpr h2]
      · rw [if_neg h]
    rw [hb]

theorem two_spaces_of_profileMatches (text : List Nat) (p : String × List String)
    (h : profileMatches text p) : 2 ≤ text.count 32 := by
  obtain ⟨w, -, hw⟩ := h
  have hle := (List.IsInfix.sublist hw).count_le 32
  rw [count_space_map_tolower] at hle
  have h2 : 2 ≤ (32 :: cstr w ++ [32]).count 32 := by
    simp only [List.cons_append, List.count_cons, List.count_append, List.count_nil, beq_self_eq_true,
      if_true]
    omega
  omega

theorem esMarkers_no_space (w : String) (hw : w ∈ esMarkers) : (cstr w).count 32 = 0 := by
  simp only [esMarkers, List.mem_cons, List.mem_singleton, List.not_mem_nil, or_false] at hw
  rcases hw with rfl | rfl | rfl | rfl | rfl | rfl | rfl | rfl | rfl | rfl <;> decide

/-- C7 (as amended).  A marker word counts as matched when the space byte bounds it on both
sides; another whitespace byte, such as tab or newline, is not a boundary.  For every Spanish
marker `w` and every text `pre ++ l :: w ++ r :: post` whose parts `pre` and `post` hold no space
byte, the result is "es" exactly when both delimiters `l` and `r` are the space byte. -/
theorem space_is_the_only_boundary (handle : Int) (w : String) (hw : w ∈ esMarkers)
    (pre post : List Nat) (l r : Nat) (hpre : 32 ∉ pre) (hpost : 32 ∉ post) :
    nativeDetectLanguage handle (.utf (pre ++ l :: cstr w ++ r :: post)) = "es" ↔
      l = 32 ∧ r = 32 := by
  constructor
  · intro hres
    obtain ⟨i, p, -, -, hm, -⟩ := firstMatch_some_elim _ ruleTable "es"
      (firstMatch_of_detect handle _ "es" (by decide) hres)
    have h2 := two_spaces_of_profileMatches _ p hm
    simp only [List.count_append, List.count_cons, List.count_eq_zero_of_not_mem hpre,
      List.count_eq_zero_of_not_mem hpost, esMarkers_no_space w hw, beq_iff_eq] at h2
    by_cases hl : l = 32 <;> by_cases hr : r = 32 <;> simp [hl, hr] at h2 ⊢
  · rintro ⟨rfl, rfl⟩
    exact detect_es_of_spaced handle pre post w hw

/-- C7 (as amended), at "hola", "el", "gato": with two space bytes the result is "es", and the
equivalence holds with two tab bytes, where the result is not "es". -/
theorem space_is_the_only_boundary_witness :
    nativeDetectLanguage 0 (.utf (cstr "hola" ++ 32 :: cstr "el" ++ 32 :: cstr "gato")) = "es" ∧
      (nativeDetectLanguage 0 (.utf (cstr "hola" ++ 9 :: cstr "el" ++ 9 :: cstr "gato")) = "es" ↔
        9 = 32 ∧ 9 = 32) :=
  ⟨(space_is_the_only_boundary 0 "el" (by decide) (cstr "hola") (cstr "gato") 32 32
      (by decide) (by decide)).mpr ⟨rfl, rfl⟩,
    space_is_the_only_boundary 0 "el" (by decide) (cstr "hola") (cstr "gato") 9 9
      (by decide) (by decide)⟩

/-- C7 (as stated) fails: in "hola\tel\tgato" and in "hola\nel\ngato" the Spanish marker "el" is
delimited by tab bytes and by newline bytes, and both texts yield "en", not "es". -/
theorem whitespace_boundary_counterexample :
    ("el" ∈ esMarkers ∧
        cstr "hola\tel\tgato" = cstr "hola" ++ 9 :: cstr "el" ++ 9 :: cstr "gato" ∧
        nativeDetectLanguage 0 (.utf (cstr "hola\tel\tgato")) = "en") ∧
      (cstr "hola\nel\ngato" = cstr "hola" ++ 10 :: cstr "el" ++ 10 :: cstr "gato" ∧
        nativeDetectLanguage 0 (.utf (cstr "hola\nel\ngato")) = "en") ∧
      ¬ (∀ w ∈ esMarkers, ∀ (pre post : List Nat), ∀ d ∈ [9, 10],
          nativeDetectLanguage 0 (.utf (pre ++ d :: cstr w ++ d :: post)) = "es") := by
  refine ⟨by decide, by decide, ?_⟩
  intro h
  exact absurd (h "el" (by decide) (cstr "hola") (cstr "gato") 9 (by decide)) (by decide)

theorem nonAsciiBytes_cons (b : Nat) (l : List Nat) :
    nonAsciiBytes (b :: l) = nonAsciiBytes l + if 128 ≤ b then 1 else 0 := by
  unfold nonAsciiBytes
  rw [List.countP_cons]
  by_cases h : 128 ≤ b <;> simp [h]

theorem counts_cons_ascii (b : Nat) (cs : List TextChar) :
    asciiCount (.ascii b :: cs) = asciiCount cs + 1 ∧
      threeCount (.ascii b :: cs) = threeCount cs := by
  unfold asciiCount threeCount
  rw [List.countP_cons, List.countP_cons]
  exact ⟨rfl, rfl⟩

theorem counts_cons_three (b0 b1 b2 : Nat) (cs : List TextChar) :
    asciiCount (.three b0 b1 b2 :: cs) = asciiCount cs ∧
      threeCount (.three b0 b1 b2 :: cs) = threeCount cs + 1 := by
  unfold asciiCount threeCount
  rw [List.countP_cons, List.countP_cons]
  exact ⟨rfl, rfl⟩

theorem encode_counts (cs : List TextChar) (hwf : ∀ c ∈ cs, c.wellFormed) :
    (encode cs).length = asciiCount cs + 3 * threeCount cs ∧
      nonAsciiBytes (encode cs) = 3 * threeCount cs := by
  induction cs with
  | nil => exact ⟨rfl, rfl⟩
  | cons c cs ih =>
    obtain ⟨ih1, ih2⟩ := ih (fun d hd => hwf d (List.mem_cons_of_mem c hd))
    have hc := hwf c (List.mem_cons_self c cs)
    cases c with
    | ascii b =>
      have hb : ¬ 128 ≤ b := not_le.mpr hc
      obtain ⟨e1, e2⟩ := counts_cons_ascii b cs
      have e3 : encode (.ascii b :: cs) = b :: encode cs := rfl
      rw [e1, e2, e3, nonAsciiBytes_cons, if_neg hb, List.length_cons, ih1, ih2]
      omega
    | three b0 b1 b2 =>
      obtain ⟨⟨hlead, -⟩, ⟨h1, -⟩, ⟨h2, -⟩⟩ := hc
      have h0 : 128 ≤ b0 := by omega
      obtain ⟨e1, e2⟩ := counts_cons_three b0 b1 b2 cs
      have e3 : encode (.three b0 b1 b2 :: cs) = b0 :: b1 :: b2 :: encode cs := rfl
      rw [e1, e2, e3, nonAsciiBytes_cons, nonAsciiBytes_cons, nonAsciiBytes_cons, if_pos h0,
        if_pos h1, if_pos h2, List.length_cons, List.length_cons, List.length_cons, ih1, ih2]
      omega

theorem encode_no_space (cs : List TextChar)
    (hthree : ∀ c ∈ cs, c.wellFormed ∧ c.isThree = true) : (encode cs).count 32 = 0 := by
  induction cs with
  | nil => rfl
  | cons c cs ih =>
    have ih1 := ih (fun d hd => hthree d (List.mem_cons_of_mem c hd))
    obtain ⟨hwf, h3⟩ := hthree c (List.mem_cons_self c cs)
    cases c with
    | ascii b => simp [TextChar.isThree] at h3
    | three b0 b1 b2 =>
      obtain ⟨⟨h0, -⟩, ⟨h1, -⟩, ⟨h2, -⟩⟩ := hwf
      have e0 : b0 ≠ 32 := by omega
      have e1 : b1 ≠ 32 := by omega
      have e2 : b2 ≠ 32 := by omega
      simp only [encode, TextChar.bytes, List.cons_append, List.nil_append, List.count_cons,
        ih1, beq_eq_false_iff_ne.mpr e0, beq_eq_false_iff_ne.mpr e1,
        beq_eq_false_iff_ne.mpr e2, Bool.false_eq_true, if_false]

/-- Byte counting where the counter cannot overflow.  The fallback counts every byte of a
multi-byte character.  For a marker-free text shorter than `2 ^ 31` bytes made of `a` ASCII
characters and `k` characters encoded in three bytes, the result is "mul" exactly when
`27 * k > a` and "en" exactly when not.  A non-empty text shorter than `2 ^ 31` bytes made only
of three-byte characters yields "mul"; 25 ASCII letters followed by one three-byte character, 3
non-ASCII bytes of 28 but 1 character of 26, yield "mul". -/
theorem byte_counting :
    (∀ (handle : Int) (cs : List TextChar), (∀ c ∈ cs, c.wellFormed) →
      (encode cs).length < 2 ^ 31 → (∀ p ∈ ruleTable, ¬ profileMatches (encode cs) p) →
      (nativeDetectLanguage handle (.utf (encode cs)) = "mul" ↔
          asciiCount cs < 27 * threeCount cs) ∧
        (nativeDetectLanguage handle (.utf (encode cs)) = "en" ↔
          ¬ asciiCount cs < 27 * threeCount cs)) ∧
      (∀ (handle : Int) (cs : List TextChar), cs ≠ [] →
        (∀ c ∈ cs, c.wellFormed ∧ c.isThree = true) → (encode cs).length < 2 ^ 31 →
        nativeDetectLanguage handle (.utf (encode cs)) = "mul") ∧
      ((cstr "abcdefghijklmnopqrstuvwxy" ++ [228, 184, 173]).length = 28 ∧
        nonAsciiBytes (cstr "abcdefghijklmnopqrstuvwxy" ++ [228, 184, 173]) = 3 ∧
        cstr "abcdefghijklmnopqrstuvwxy" ++ [228, 184, 173] =
          encode ((cstr "abcdefghijklmnopqrstuvwxy").map TextChar.ascii ++
            [TextChar.three 228 184 173]) ∧
        ((cstr "abcdefghijklmnopqrstuvwxy").map TextChar.ascii ++
            [TextChar.three 228 184 173]).length = 26 ∧
        nativeDetectLanguage 0
          (.utf (cstr "abcdefghijklmnopqrstuvwxy" ++ [228, 184, 173])) = "mul") := by
  have main : ∀ (handle : Int) (cs : List TextChar), (∀ c ∈ cs, c.wellFormed) →
      (encode cs).length < 2 ^ 31 → (∀ p ∈ ruleTable, ¬ profileMatches (encode cs) p) →
      (nativeDetectLanguage handle (.utf (encode cs)) = "mul" ↔
          asciiCount cs < 27 * threeCount cs) ∧
        (nativeDetectLanguage handle (.utf (encode cs)) = "en" ↔
          ¬ asciiCount cs < 27 * threeCount cs) := by
    intro handle cs hwf hlen hfree
    obtain ⟨h1, h2⟩ := encode_counts cs hwf
    have hiff : (encode cs).length < 10 * nonAsciiBytes (encode cs) ↔
        asciiCount cs < 27 * threeCount cs := by
      rw [h1, h2]; omega
    rw [← hiff]
    exact detect_free_iff handle (encode cs) hlen hfree
  refine ⟨main, ?_, by decide⟩
  intro handle cs hne hthree hlen
  have hfree : ∀ p ∈ ruleTable, ¬ profileMatches (encode cs) p := by
    intro p _ hm
    have h2 := two_spaces_of_profileMatches _ p hm
    rw [encode_no_space cs hthree] at h2
    omega
  refine (main handle cs (fun c hc => (hthree c hc).1) hlen hfree).1.mpr ?_
  have hk : 0 < threeCount cs := by
    unfold threeCount
    rw [List.countP_pos_iff]
    cases cs with
    | nil => exact absurd rfl hne
    | cons c cs => exact ⟨c, List.mem_cons_self c cs, (hthree c (List.mem_cons_self c cs)).2⟩
  have ha : asciiCount cs = 0 := by
    unfold asciiCount
    rw [List.countP_eq_zero]
    intro c hc
    simp [(hthree c hc).2]
  omega

/-- Byte counting at the text of one ASCII letter and one three-byte character: it is
marker-free, `27 * 1 > 1`, and the result is "mul". -/
theorem byte_counting_witness :
    (∀ c ∈ [TextChar.ascii 97, TextChar.three 228 184 173], c.wellFormed) ∧
      (encode [TextChar.ascii 97, TextChar.three 228 184 173]).length < 2 ^ 31 ∧
      (∀ p ∈ ruleTable,
        ¬ profileMatches (encode [TextChar.ascii 97, TextChar.three 228 184 173]) p) ∧
      asciiCount [TextChar.ascii 97, TextChar.three 228 184 173] <
        27 * threeCount [TextChar.ascii 97, TextChar.three 228 184 173] ∧
      nativeDetectLanguage 0
        (.utf (encode [TextChar.ascii 97, TextChar.three 228 184 173])) = "mul" :=
  ⟨by decide, by decide, by decide, by decide,
    (byte_counting.1 0 [TextChar.ascii 97, TextChar.three 228 184 173] (by decide) (by decide)
      (by decide)).1.mpr (by decide)⟩

/-! ## The `int` counter past `2 ^ 31 - 1` -/

theorem detect_of_negative_count (handle : Int) (text : List Nat)
    (hfree : ∀ p ∈ ruleTable, ¬ profileMatches text p)
    (hneg : toInt32 (nonAsciiBytes text : Nat) < 0) :
    nativeDetectLanguage handle (.utf text) = "en" := by
  have hk := keywordResult_of_free text hfree
  simp only [nativeDetectLanguage, GetStringUTFChars, countAccents_eq, nonAsciiBytes_map_tolower,
    intGt_neg _ _ hneg, hk, Bool.false_and, Bool.false_eq_true, if_false]

theorem replicate_three (k : Nat) :
    (∀ p ∈ ruleTable,
      ¬ profileMatches (encode (List.replicate k (TextChar.three 228 184 173))) p) ∧
      (encode (List.replicate k (TextChar.three 228 184 173))).length = 3 * k ∧
      nonAsciiBytes (encode (List.replicate k (TextChar.three 228 184 173))) = 3 * k ∧
      asciiCount (List.replicate k (TextChar.three 228 184 173)) = 0 ∧
      threeCount (List.replicate k (TextChar.three 228 184 173)) = k := by
  have hmem : ∀ c ∈ List.replicate k (TextChar.three 228 184 173),
      c.wellFormed ∧ c.isThree = true := by
    intro c hc
    rw [List.eq_of_mem_replicate hc]
    exact ⟨by decide, rfl⟩
  have ha : asciiCount (List.replicate k (TextChar.three 228 184 173)) = 0 := by
    unfold asciiCount
    rw [List.countP_eq_zero]
    intro c hc
    simp [(hmem c hc).2]
  have ht : threeCount (List.replicate k (TextChar.three 228 184 173)) = k := by
    unfold threeCount
    rw [List.countP_eq_length.mpr (fun c hc => (hmem c hc).2), List.length_replicate]
  obtain ⟨h1, h2⟩ := encode_counts _ (fun c hc => (hmem c hc).1)
  refine ⟨?_, by rw [h1, ha, ht]; omega, by rw [h2, ht], ha, ht⟩
  intro p _ hm
  have h3 := two_spaces_of_profileMatches _ p hm
  rw [encode_no_space _ hmem] at h3
  omega

/-- C5 (the code at the claim).  The text of `2 ^ 30` characters encoded in three bytes each
(228, 184, 173) has 3221225472 bytes, all of them non-ASCII, and no marker word matches in it,
so ten times the number of non-ASCII bytes exceeds the byte length; yet the `int` counter holds
`-1073741824` after the loop, the test `accentCount > length * 0.1` fails, and
`nativeDetectLanguage` returns "en", not "mul". -/
theorem fallback_threshold_int_overflow :
    (∀ p ∈ ruleTable,
      ¬ profileMatches (encode (List.replicate 1073741824 (TextChar.three 228 184 173))) p) ∧
      (encode (List.replicate 1073741824 (TextChar.three 228 184 173))).length = 3221225472 ∧
      nonAsciiBytes (encode (List.replicate 1073741824 (TextChar.three 228 184 173))) =
        3221225472 ∧
      (encode (List.replicate 1073741824 (TextChar.three 228 184 173))).length <
        10 * nonAsciiBytes (encode (List.replicate 1073741824 (TextChar.three 228 184 173))) ∧
      countAccents ((encode (List.replicate 1073741824 (TextChar.three 228 184 173))).map
        tolower) = -1073741824 ∧
      nativeDetectLanguage 0
        (.utf (encode (List.replicate 1073741824 (TextChar.three 228 184 173)))) = "en" ∧
      nativeDetectLanguage 0
        (.utf (encode (List.replicate 1073741824 (TextChar.three 228 184 173)))) ≠ "mul" := by
  obtain ⟨hfree, hlen, hcount, -, -⟩ := replicate_three 1073741824
  have hwrap : toInt32 ((3 * 1073741824 : Nat) : Int) = -1073741824 := by decide
  have hen := detect_of_negative_count 0 _ hfree (by rw [hcount, hwrap]; decide)
  refine ⟨hfree, hlen, hcount, by rw [hlen, hcount]; norm_num, ?_, hen, by rw [hen]; decide⟩
  rw [countAccents_eq, nonAsciiBytes_map_tolower, hcount, hwrap]

/-- C8 (the code at the claim).  The text made only of 715827883 characters encoded in three
bytes each (228, 184, 173) is marker-free, with `a = 0` ASCII characters and `k = 715827883`
three-byte characters, so `27 * k > a`; it has `3 * k = 2147483649` bytes, every one of them
counted, but the `int` counter wraps at the byte `2 ^ 31` and holds `-2147483647` after the
loop, and `nativeDetectLanguage` returns "en", not "mul". -/
theorem byte_counting_int_overflow :
    (∀ c ∈ List.replicate 715827883 (TextChar.three 228 184 173),
      c.wellFormed ∧ c.isThree = true) ∧
      (∀ p ∈ ruleTable,
        ¬ profileMatches (encode (List.replicate 715827883 (TextChar.three 228 184 173))) p) ∧
      asciiCount (List.replicate 715827883 (TextChar.three 228 184 173)) = 0 ∧
      threeCount (List.replicate 715827883 (TextChar.three 228 184 173)) = 715827883 ∧
      asciiCount (List.replicate 715827883 (TextChar.three 228 184 173)) <
        27 * threeCount (List.replicate 715827883 (TextChar.three 228 184 173)) ∧
      (encode (List.replicate 715827883 (TextChar.three 228 184 173))).length = 2147483649 ∧
      countAccents ((encode (List.replicate 715827883 (TextChar.three 228 184 173))).map
        tolower) = -2147483647 ∧
      nativeDetectLanguage 0
        (.utf (encode (List.replicate 715827883 (TextChar.three 228 184 173)))) = "en" ∧
      nativeDetectLanguage 0
        (.utf (encode (List.replicate 715827883 (TextChar.three 228 184 173)))) ≠ "mul" := by
  obtain ⟨hfree, hlen, hcount, ha, ht⟩ := replicate_three 715827883
  have hwrap : toInt32 ((3 * 715827883 : Nat) : Int) = -2147483647 := by decide
  have hen := detect_of_negative_count 0 _ hfree (by rw [hcount, hwrap]; decide)
  refine ⟨?_, hfree, ha, ht, by rw [ha, ht]; norm_num, hlen, ?_, hen, by rw [hen]; decide⟩
  · intro c hc
    rw [List.eq_of_mem_replicate hc]
    exact ⟨by decide, rfl⟩
  · rw [countAccents_eq, nonAsciiBytes_map_tolower, hcount, hwrap]

/-- C9 (keyword match before the fallback).  When some profile matches in a text, the result is
the code of the first matching profile, whatever the share of non-ASCII bytes, and it is not
"mul"; the result "mul" occurs only when no profile matches. -/
theorem keyword_precedence (handle : Int) (text : List Nat) :
    ((∃ p ∈ ruleTable, profileMatches text p) →
      nativeDetectLanguage handle (.utf text) ≠ "mul" ∧
        ∃ (i : Nat) (p : String × List String), ruleTable[i]? = some p ∧
          profileMatches text p ∧
          (∀ (j : Nat) (q : String × List String), j < i → ruleTable[j]? = some q →
            ¬ profileMatches text q) ∧
          nativeDetectLanguage handle (.utf text) = p.1) ∧
      (nativeDetectLanguage handle (.utf text) = "mul" →
        ∀ p ∈ ruleTable, ¬ profileMatches text p) := by
  have key : (∃ p ∈ ruleTable, profileMatches text p) →
      nativeDetectLanguage handle (.utf text) ≠ "mul" ∧
        ∃ (i : Nat) (p : String × List String), ruleTable[i]? = some p ∧
          profileMatches text p ∧
          (∀ (j : Nat) (q : String × List String), j < i → ruleTable[j]? = some q →
            ¬ profileMatches text q) ∧
          nativeDetectLanguage handle (.utf text) = p.1 := by
    rintro ⟨p0, hp0, hm0⟩
    cases hfm : firstMatch text ruleTable with
    | none => exact absurd hm0 ((firstMatch_eq_none_iff text ruleTable).mp hfm p0 hp0)
    | some c =>
      obtain ⟨i, p, hp, hc, hm, hfirst⟩ := firstMatch_some_elim text ruleTable c hfm
      have hres := detect_of_firstMatch handle text c hfm
      refine ⟨?_, i, p, hp, hm, hfirst, by rw [hres, hc]⟩
      rw [hres, ← hc]
      exact (ruleTable_code_ne p (List.getElem?_mem hp)).2.1
  refine ⟨key, ?_⟩
  intro hmul p hp hm
  exact (key ⟨p, hp, hm⟩).1 hmul

/-- C9, at a text of four three-byte characters with " de " in the middle: 12 of its 16 bytes
are non-ASCII, a Spanish marker matches, and the result is "es", not "mul". -/
theorem keyword_precedence_witness :
    (cstr " de ").length + 10 <
        10 * nonAsciiBytes
          ([228, 184, 173, 230, 150, 135] ++ cstr " de " ++ [228, 184, 173, 230, 150, 135]) ∧
      nativeDetectLanguage 0
          (.utf ([228, 184, 173, 230, 150, 135] ++ cstr " de " ++
            [228, 184, 173, 230, 150, 135])) = "es" ∧
      nativeDetectLanguage 0
          (.utf ([228, 184, 173, 230, 150, 135] ++ cstr " de " ++
            [228, 184, 173, 230, 150, 135])) ≠ "mul" :=
  ⟨by decide, by decide,
    ((keyword_precedence 0
      ([228, 184, 173, 230, 150, 135] ++ cstr " de " ++ [228, 184, 173, 230, 150, 135])).1
      ⟨("es", ["el", "la", "de", "que", "es", "con", "y", "en", "un", "una"]), by decide,
        by decide⟩).1⟩

/-- C10 (empty input).  On the empty string no marker matches, the count of non-ASCII bytes is
0, the test `0 > 0 * 0.1` fails, and `nativeDetectLanguage` returns "en", not "und" and not
"mul". -/
theorem empty_input (handle : Int) :
    nativeDetectLanguage handle (.utf []) = "en" ∧
      nativeDetectLanguage handle (.utf []) ≠ "und" ∧
      nativeDetectLanguage handle (.utf []) ≠ "mul" ∧
      (∀ p ∈ ruleTable, ¬ profileMatches [] p) ∧
      countAccents [] = 0 ∧
      Double.gt (Double.ofNat 0) (Double.mul (Double.ofNat 0) Double.lit_0_1) = false := by
  have h : nativeDetectLanguage handle (.utf []) = "en" := rfl
  refine ⟨h, ?_, ?_, by decide, by decide, by decide⟩
  · rw [h]; decide
  · rw [h]; decide

theorem tolower_caseVariant (a b : Nat) (h : caseVariant a b) : tolower a = tolower b := by
  unfold caseVariant at h
  unfold tolower
  rcases h with rfl | ⟨h1, h2, rfl⟩ | ⟨h1, h2, rfl⟩
  · rfl
  · rw [if_pos ⟨h1, h2⟩, if_neg (by omega)]
  · rw [if_neg (by omega), if_pos ⟨h1, h2⟩]

theorem map_tolower_of_differOnlyInCase (s t : List Nat) (h : differOnlyInCase s t) :
    s.map tolower = t.map tolower := by
  induction s generalizing t with
  | nil =>
    cases t with
    | nil => rfl
    | cons b t => exact absurd h not_false
  | cons a s ih =>
    cases t with
    | nil => exact absurd h not_false
    | cons b t =>
      obtain ⟨hab, hst⟩ := h
      rw [List.map_cons, List.map_cons, tolower_caseVariant a b hab, ih t hst]

theorem detect_of_map_tolower_eq (handle : Int) (s t : List Nat)
    (h : s.map tolower = t.map tolower) :
    nativeDetectLanguage handle (.utf s) = nativeDetectLanguage handle (.utf t) := by
  simp only [nativeDetectLanguage, GetStringUTFChars, h]

/-- C11 (case-insensitivity).  Two texts that differ only in the case of ASCII letters get the
same code: "EL GATO ES BONITO" and "el gato es bonito" both yield "es".  A byte of value 128 or
more is not folded, and the count of non-ASCII bytes taken after the lowercasing, both the
`int` counter of the code and the exact number, equals the count on the text as given. -/
theorem case_insensitive :
    (∀ (handle : Int) (s t : List Nat), differOnlyInCase s t →
      nativeDetectLanguage handle (.utf s) = nativeDetectLanguage handle (.utf t)) ∧
      (differOnlyInCase (cstr "EL GATO ES BONITO") (cstr "el gato es bonito") ∧
        nativeDetectLanguage 0 (.utf (cstr "EL GATO ES BONITO")) = "es" ∧
        nativeDetectLanguage 0 (.utf (cstr "el gato es bonito")) = "es") ∧
      (∀ b : Nat, 128 ≤ b → tolower b = b) ∧
      (∀ text : List Nat, countAccents (text.map tolower) = countAccents text ∧
        nonAsciiBytes (text.map tolower) = nonAsciiBytes text) := by
  refine ⟨?_, by decide, ?_, ?_⟩
  · intro handle s t h
    exact detect_of_map_tolower_eq handle s t (map_tolower_of_differOnlyInCase s t h)
  · intro b hb
    unfold tolower
    rw [if_neg (by omega)]
  · intro text
    refine ⟨?_, nonAsciiBytes_map_tolower text⟩
    rw [countAccents_eq, countAccents_eq, nonAsciiBytes_map_tolower]

/-- C11, at "Le Chat EST beau" and "le chat est BEAU": the two texts differ only in the case of
ASCII letters and both yield "fr". -/
theorem case_insensitive_witness :
    differOnlyInCase (cstr "Le Chat EST beau") (cstr "le chat est BEAU") ∧
      nativeDetectLanguage 0 (.utf (cstr "Le Chat EST beau")) = "fr" ∧
      nativeDetectLanguage 0 (.utf (cstr "Le Chat EST beau")) =
        nativeDetectLanguage 0 (.utf (cstr "le chat est BEAU")) :=
  ⟨by decide, by decide,
    case_insensitive.1 0 (cstr "Le Chat EST beau") (cstr "le chat est BEAU") (by decide)⟩

theorem step_result_log (log1 log2 : List LogLine) (c : NativeCall) :
    (step log1 c).1 = (step log2 c).1 := by
  cases c with
  | nativeInitialize p =>
    simp only [step, nativeInitialize]
    cases GetStringUTFChars p <;> rfl
  | nativeDetectLanguage h t => rfl
  | nativeRelease h => rfl
  | nativeGetVersion => rfl

theorem run_results_log (log1 log2 : List LogLine) (cs : List NativeCall) :
    (run log1 cs).1 = (run log2 cs).1 := by
  induction cs generalizing log1 log2 with
  | nil => rfl
  | cons c cs ih =>
    simp only [run]
    rw [step_result_log log1 log2 c, ih (step log1 c).2 (step log2 c).2]

/-- C12 (determinism and handle independence).  The code returned by `nativeDetectLanguage` is a
function of the text alone: two calls on one text return the same code whatever the two handle
values and whatever calls, from whatever logs, came before each of them. -/
theorem detect_deterministic (text : JString) (handle1 handle2 : Int)
    (log1 log2 : List LogLine) (history1 history2 : List NativeCall) :
    nativeDetectLanguage handle1 text = nativeDetectLanguage handle2 text ∧
      (step (run log1 history1).2 (.nativeDetectLanguage handle1 text)).1 =
        (step (run log2 history2).2 (.nativeDetectLanguage handle2 text)).1 ∧
      (step (run log1 history1).2 (.nativeDetectLanguage handle1 text)).1 =
        some (nativeDetectLanguage 0 text) := by
  have h : ∀ h1 h2 : Int, nativeDetectLanguage h1 text = nativeDetectLanguage h2 text :=
    fun _ _ => rfl
  exact ⟨h handle1 handle2, congrArg some (h handle1 handle2), congrArg some (h handle1 0)⟩

/-- C13 (absent model path).  With a null model path, and also with a path whose characters the
JVM cannot hand out, `nativeInitialize` returns the empty string, and it writes nothing to the
log. -/
theorem initialize_absent_path (log : List LogLine) :
    nativeInitialize log .null = ("", log) ∧ nativeInitialize log .unreadable = ("", log) :=
  ⟨rfl, rfl⟩

/-- C14 (the model path has no effect).  For every model path with characters,
`nativeInitialize` returns "1.2.0", the string that `nativeGetVersion` returns; and after
`nativeInitialize` with either of two paths, followed by the same calls, a call of
`nativeDetectLanguage` returns the same code. -/
theorem model_path_no_effect (log : List LogLine) (path1 path2 : List Nat) :
    (nativeInitialize log (.utf path1)).1 = "1.2.0" ∧
      (nativeInitialize log (.utf path1)).1 = nativeGetVersion ∧
      (nativeInitialize log (.utf path1)).1 = (nativeInitialize log (.utf path2)).1 ∧
      (∀ (history : List NativeCall) (handle : Int) (text : JString),
        (step (run log (.nativeInitialize (.utf path1) :: history)).2
            (.nativeDetectLanguage handle text)).1 =
          (step (run log (.nativeInitialize (.utf path2) :: history)).2
            (.nativeDetectLanguage handle text)).1) ∧
      (∀ history : List NativeCall,
        (run log (.nativeInitialize (.utf path1) :: history)).1 =
          (run log (.nativeInitialize (.utf path2) :: history)).1) := by
  refine ⟨rfl, rfl, rfl, fun _ _ _ => rfl, ?_⟩
  intro history
  simp only [run]
  rw [run_results_log (step log (.nativeInitialize (.utf path1))).2
    (step log (.nativeInitialize (.utf path2))).2 history]
  rfl

/-- C15 (release is idempotent and always succeeds).  For every handle and from every log,
`nativeRelease` returns; with the handle 0 it leaves the log as it is, otherwise it adds one
line to it; and the texts returned by any calls that follow are the same after two releases,
after one release and after none, so detection before and after releases agrees. -/
theorem release_idempotent (log : List LogLine) (handle : Int) :
    (step log (.nativeRelease handle)).1 = none ∧
      nativeRelease log 0 = log ∧
      (∀ later : List NativeCall,
        (run (nativeRelease (nativeRelease log handle) handle) later).1 =
            (run (nativeRelease log handle) later).1 ∧
          (run (nativeRelease log handle) later).1 = (run log later).1) ∧
      (∀ (releases : List Int) (h : Int) (text : JString),
        (step (run log (releases.map NativeCall.nativeRelease)).2
            (.nativeDetectLanguage h text)).1 =
          (step log (.nativeDetectLanguage h text)).1) ∧
      (∀ (releases : List Int) (modelPath : JString),
        (step (run log (releases.map NativeCall.nativeRelease)).2
            (.nativeInitialize modelPath)).1 =
          (step log (.nativeInitialize modelPath)).1) := by
  refine ⟨rfl, rfl, fun later => ⟨run_results_log _ _ later, run_results_log _ _ later⟩,
    fun _ _ _ => rfl, fun _ p => step_result_log _ _ (.nativeInitialize p)⟩

end LanguageId

/-! # The cipher: the proofs -/

namespace CryptoEngine

theorem load_some (l : List Nat) (i : Nat) (hi : i < l.length) :
    load (some l) i = .ok (l.getD i 0) := by
  unfold load
  simp only [List.getElem?_eq_getElem hi, List.getD_eq_getElem?_getD, Option.getD_some]

theorem rem_pos (i n : Nat) (hn : 0 < n) : rem i n = .ok (i % n) := by
  unfold rem
  rw [if_neg (by omega)]

theorem xorLoop_ok (d k : List Nat) (keyLen : Nat) (hk : 0 < keyLen) (hkl : keyLen ≤ k.length)
    (i n : Nat) (hd : i + n ≤ d.length) :
    xorLoop (some d) (some k) keyLen i n =
      .ok ((List.range' i n).map
        (fun j => ((d.getD j 0 ^^^ (k.getD (j % keyLen) 0 % 256)) ^^^ 0xAA) % 256)) := by
  induction n generalizing i with
  | zero => rfl
  | succ n ih =>
    have hj : i % keyLen < k.length := lt_of_lt_of_le (Nat.mod_lt i hk) hkl
    unfold xorLoop
    rw [load_some d i (by omega), rem_pos i keyLen hk]
    simp only
    rw [load_some k (i % keyLen) hj]
    simp only
    rw [ih (i + 1) (by omega)]
    simp only [List.range'_succ, List.map_cons]

theorem strlen_some (k : List Nat) :
    strlen (some k) = .ok (k.takeWhile (fun c => c != 0)).length := rfl

theorem takeWhile_nonzero (k : List Nat) (hk0 : ∀ c ∈ k, c ≠ 0) :
    k.takeWhile (fun c => c != 0) = k := by
  rw [List.takeWhile_eq_self_iff]
  intro c hc
  simpa using hk0 c hc

theorem encrypt_ok (s : Bool) (d k : List Nat) (length : Nat) (canAllocate : Nat → Bool)
    (hlen : 0 < length) (hd : length ≤ d.length)
    (hk : 0 < (k.takeWhile (fun c => c != 0)).length) (ha : canAllocate length = true) :
    (encrypt s (some d) length (some k) canAllocate).1 =
      .ok ((List.range' 0 length).map
        (fun j => ((d.getD j 0 ^^^
          (k.getD (j % (k.takeWhile (fun c => c != 0)).length) 0 % 256)) ^^^ 0xAA) % 256)) := by
  unfold encrypt
  simp only [reduceCtorEq, false_or, if_neg (Nat.pos_iff_ne_zero.mp hlen), if_false, ha,
    Bool.not_true, Bool.false_eq_true, strlen_some, if_neg (Nat.pos_iff_ne_zero.mp hk)]
  exact xorLoop_ok d k _ hk (List.takeWhile_sublist _).length_le 0 length (by omega)

theorem decrypt_eq_encrypt (s : Bool) (data : Ptr) (length : Nat) (key : Ptr)
    (canAllocate : Nat → Bool) :
    decrypt s data length key canAllocate = encrypt s data length key canAllocate := rfl

theorem xor_mask_lt (x y : Nat) (hx : x < 256) (hy : y < 256) : (x ^^^ y) ^^^ 0xAA < 256 := by
  have h8 : (256 : Nat) = 2 ^ 8 := by norm_num
  rw [h8] at hx hy ⊢
  exact Nat.xor_lt_two_pow (Nat.xor_lt_two_pow hx hy) (by norm_num)

theorem xor_mask_undo (x y : Nat) : (((x ^^^ y) ^^^ 0xAA) ^^^ y) ^^^ 0xAA = x := by
  rw [Nat.xor_assoc x y, Nat.xor_comm y, ← Nat.xor_assoc x, Nat.xor_cancel_right,
    Nat.xor_cancel_right]

theorem cipher_getElem? (d k : List Nat) (m i : Nat) (hi : i < d.length) :
    ((List.range' 0 d.length).map
        (fun j => ((d.getD j 0 ^^^ (k.getD (j % m) 0 % 256)) ^^^ 0xAA) % 256))[i]? =
      some (((d.getD i 0 ^^^ (k.getD (i % m) 0 % 256)) ^^^ 0xAA) % 256) := by
  rw [List.getElem?_map, List.getElem?_range' _ _ hi]
  simp

theorem cipher_round (d k : List Nat) (m : Nat) (hdb : ∀ b ∈ d, b < 256) :
    ((List.range' 0 d.length).map
        (fun j => ((((List.range' 0 d.length).map
            (fun j => ((d.getD j 0 ^^^ (k.getD (j % m) 0 % 256)) ^^^ 0xAA) % 256)).getD j 0 ^^^
          (k.getD (j % m) 0 % 256)) ^^^ 0xAA) % 256)) = d := by
  apply List.ext_getElem?
  intro i
  by_cases hi : i < d.length
  · have hc : ((List.range' 0 d.length).map
        (fun j => ((d.getD j 0 ^^^ (k.getD (j % m) 0 % 256)) ^^^ 0xAA) % 256)).getD i 0 =
        ((d.getD i 0 ^^^ (k.getD (i % m) 0 % 256)) ^^^ 0xAA) % 256 := by
      rw [List.getD_eq_getElem?_getD, cipher_getElem? d k m i hi, Option.getD_some]
    have hx : d.getD i 0 < 256 := by
      rw [List.getD_eq_getElem?_getD, List.getElem?_eq_getElem hi, Option.getD_some]
      exact hdb _ (List.getElem_mem hi)
    have hy : k.getD (i % m) 0 % 256 < 256 := Nat.mod_lt _ (by norm_num)
    rw [List.getElem?_map, List.getElem?_range' _ _ hi, Option.map_some', Nat.zero_add,
      Nat.one_mul, hc, Nat.mod_eq_of_lt (xor_mask_lt _ _ hx hy), xor_mask_undo,
      Nat.mod_eq_of_lt hx, List.getD_eq_getElem?_getD, List.getElem?_eq_getElem hi,
      Option.getD_some]
  · rw [List.getElem?_eq_none (by simpa using hi), List.getElem?_eq_none (by simpa using hi)]

/-- C16 (cipher round trip).  For every non-empty buffer `d` of bytes and every non-empty key
`k` without a zero byte, `encrypt` returns a vector, and `decrypt` of that vector with the same
key returns `d`. -/
theorem cipher_round_trip (s : Bool) (d k : List Nat) (hd : d ≠ [])
    (hdb : ∀ b ∈ d, b < 256) (hk : k ≠ []) (hk0 : ∀ c ∈ k, c ≠ 0) :
    ∃ c : List Nat, (encrypt s (some d) d.length (some k)).1 = .ok c ∧
      (decrypt (encrypt s (some d) d.length (some k)).2 (some c) c.length (some k)).1 =
        .ok d := by
  have hlen : 0 < d.length := List.length_pos.mpr hd
  have hkl : 0 < (k.takeWhile (fun c => c != 0)).length := by
    rw [takeWhile_nonzero k hk0]; exact List.length_pos.mpr hk
  refine ⟨_, encrypt_ok s d k d.length _ hlen (le_refl _) hkl rfl, ?_⟩
  rw [decrypt_eq_encrypt, encrypt_ok _ _ k _ _ (by simpa using hlen) (le_refl _) hkl rfl]
  simp only [List.length_map, List.length_range']
  rw [cipher_round d k _ hdb]

/-- C16, at the buffer "hi" (bytes 104, 105) and the key "k" (byte 107): the ciphertext is
`[169, 168]` and decrypting it gives the buffer back. -/
theorem cipher_round_trip_witness :
    (encrypt false (some [104, 105]) 2 (some [107])).1 = .ok [169, 168] ∧
      (decrypt true (some [169, 168]) 2 (some [107])).1 = .ok [104, 105] ∧
      ∃ c : List Nat, (encrypt false (some [104, 105]) [104, 105].length (some [107])).1 =
          .ok c ∧
        (decrypt (encrypt false (some [104, 105]) [104, 105].length (some [107])).2 (some c)
          c.length (some [107])).1 = .ok [104, 105] :=
  ⟨rfl, rfl,
    cipher_round_trip false [104, 105] [107] (by decide) (by decide) (by decide) (by decide)⟩

/-- C17 (ciphertext shape).  For every non-empty buffer `d` of `n` bytes and every non-empty key
`k` of `m` characters, none of them zero, `encrypt` returns a vector of exactly `n` bytes whose
byte at every position `i < n` is `d[i] XOR k[i mod m] XOR 0xAA`. -/
theorem ciphertext_shape (s : Bool) (d k : List Nat) (hd : d ≠ [])
    (hdb : ∀ b ∈ d, b < 256) (hk : k ≠ []) (hk0 : ∀ c ∈ k, c ≠ 0) (hkb : ∀ c ∈ k, c < 256) :
    ∃ v : List Nat, (encrypt s (some d) d.length (some k)).1 = .ok v ∧
      v.length = d.length ∧
      ∀ i : Nat, i < d.length → ∃ x y : Nat, d[i]? = some x ∧ k[i % k.length]? = some y ∧
        v[i]? = some ((x ^^^ y) ^^^ 0xAA) := by
  have hlen : 0 < d.length := List.length_pos.mpr hd
  have hm : 0 < k.length := List.length_pos.mpr hk
  have hkl : 0 < (k.takeWhile (fun c => c != 0)).length := by
    rw [takeWhile_nonzero k hk0]; exact hm
  refine ⟨_, encrypt_ok s d k d.length _ hlen (le_refl _) hkl rfl, by simp, ?_⟩
  intro i hi
  have hj : i % k.length < k.length := Nat.mod_lt i hm
  refine ⟨d[i], k[i % k.length], List.getElem?_eq_getElem hi, List.getElem?_eq_getElem hj, ?_⟩
  rw [takeWhile_nonzero k hk0, cipher_getElem? d k k.length i hi]
  have hx : d[i] < 256 := hdb _ (List.getElem_mem hi)
  have hy : k[i % k.length] < 256 := hkb _ (List.getElem_mem hj)
  simp only [List.getD_eq_getElem?_getD, List.getElem?_eq_getElem hi,
    List.getElem?_eq_getElem hj, Option.getD_some, Nat.mod_eq_of_lt hy,
    Nat.mod_eq_of_lt (xor_mask_lt _ _ hx hy)]

/-- C17, at the buffer `[1, 2, 3]` and the key "ab" (bytes 97, 98): the ciphertext has three
bytes, `1 XOR 97 XOR 0xAA`, `2 XOR 98 XOR 0xAA` and `3 XOR 97 XOR 0xAA`. -/
theorem ciphertext_shape_witness :
    (encrypt false (some [1, 2, 3]) 3 (some [97, 98])).1 = .ok [202, 202, 200] ∧
      ∃ v : List Nat, (encrypt false (some [1, 2, 3]) [1, 2, 3].length (some [97, 98])).1 =
          .ok v ∧
        v.length = [1, 2, 3].length ∧
        ∀ i : Nat, i < [1, 2, 3].length → ∃ x y : Nat, [1, 2, 3][i]? = some x ∧
          [97, 98][i % [97, 98].length]? = some y ∧ v[i]? = some ((x ^^^ y) ^^^ 0xAA) :=
  ⟨rfl, ciphertext_shape false [1, 2, 3] [97, 98] (by decide) (by decide) (by decide)
    (by decide) (by decide)⟩

/-- C18 (the code at the claim).  `verifyIntegrity` returns `true` for every buffer, every
length and every signature, so no input makes it return `false`: for the buffer "hello" it
accepts the signature "bad", the empty signature and a null signature alike. -/
theorem verifyIntegrity_always_true :
    (∀ (s : Bool) (data : Ptr) (length : Nat) (signature : Ptr),
      (verifyIntegrity s data length signature).1 = true) ∧
      (verifyIntegrity false (some [104, 101, 108, 108, 111]) 5 (some [98, 97, 100])).1 = true ∧
      (verifyIntegrity false (some [104, 101, 108, 108, 111]) 5 (some [])).1 = true ∧
      (verifyIntegrity false (some [104, 101, 108, 108, 111]) 5 none).1 = true :=
  ⟨fun _ _ _ _ => rfl, rfl, rfl, rfl⟩

theorem xorLoop_faults (d k : List Nat) (keyLen : Nat) (hk : 0 < keyLen)
    (hkl : keyLen ≤ k.length) (i n : Nat) :
    (∃ v, xorLoop (some d) (some k) keyLen i n = .ok v) ∨
      xorLoop (some d) (some k) keyLen i n = .error .outOfBounds := by
  induction n generalizing i with
  | zero => exact Or.inl ⟨[], rfl⟩
  | succ n ih =>
    have hj : i % keyLen < k.length := lt_of_lt_of_le (Nat.mod_lt i hk) hkl
    unfold xorLoop
    by_cases hi : i < d.length
    · rw [load_some d i hi, rem_pos i keyLen hk]
      simp only
      rw [load_some k (i % keyLen) hj]
      simp only
      rcases ih (i + 1) with ⟨v, hv⟩ | he
      · rw [hv]; exact Or.inl ⟨_, rfl⟩
      · rw [he]; exact Or.inr rfl
    · have hload : load (some d) i = .error .outOfBounds := by
        show (match d[i]? with
          | some b => Except.ok b
          | none => Except.error Fault.outOfBounds) = _
        rw [List.getElem?_eq_none (Nat.le_of_not_lt hi)]
      rw [hload]
      exact Or.inr rfl

theorem encrypt_fst (s : Bool) (data : Ptr) (length : Nat) (key : Ptr)
    (canAllocate : Nat → Bool) :
    (encrypt s data length key canAllocate).1 =
      if data = none ∨ length = 0 then .ok []
      else if key = none then .ok []
      else if !canAllocate length then .error .allocationFailure
      else
        match strlen key with
        | .error f => .error f
        | .ok keyLen => if keyLen = 0 then .ok [] else xorLoop data key keyLen 0 length := by
  unfold encrypt
  simp only
  generalize (if (!s) = true then (engineInitialize s).2 else s) = s2
  by_cases h1 : data = none ∨ length = 0
  · rw [if_pos h1, if_pos h1]
  · rw [if_neg h1, if_neg h1]
    by_cases h2 : key = none
    · rw [if_pos h2, if_pos h2]
    · rw [if_neg h2, if_neg h2]
      by_cases h3 : (!canAllocate length) = true
      · rw [if_pos h3, if_pos h3]
      · rw [if_neg h3, if_neg h3]
        cases strlen key with
        | error f => rfl
        | ok keyLen =>
          simp only
          split_ifs <;> rfl

theorem encrypt_faults (s : Bool) (data : Ptr) (length : Nat) (key : Ptr)
    (canAllocate : Nat → Bool) :
    (∃ v, (encrypt s data length key canAllocate).1 = .ok v) ∨
      (encrypt s data length key canAllocate).1 = .error .outOfBounds ∨
      (encrypt s data length key canAllocate).1 = .error .allocationFailure := by
  rw [encrypt_fst]
  split_ifs with h1 h2 h3
  · exact Or.inl ⟨[], rfl⟩
  · exact Or.inl ⟨[], rfl⟩
  · exact Or.inr (Or.inr rfl)
  · cases data with
    | none => exact absurd (Or.inl rfl) h1
    | some d =>
      cases key with
      | none => exact absurd rfl h2
      | some k =>
        rw [strlen_some]
        simp only
        split_ifs with h4
        · exact Or.inl ⟨[], rfl⟩
        · rcases xorLoop_faults d k _ (Nat.pos_of_ne_zero h4)
            (List.takeWhile_sublist _).length_le 0 length with hv | he
          · exact Or.inl hv
          · exact Or.inr (Or.inl he)

theorem encrypt_guard (s : Bool) (data : Ptr) (length : Nat) (key : Ptr)
    (canAllocate : Nat → Bool) (h : data = none ∨ length = 0 ∨ key = none) :
    (encrypt s data length key canAllocate).1 = .ok [] := by
  rw [encrypt_fst]
  split_ifs with h1 h2
  · rfl
  · rfl
  all_goals
    rcases h with h | h | h
    · exact absurd (Or.inl h) h1
    · exact absurd (Or.inr h) h1
    · exact absurd h h2

theorem encrypt_empty_key (s : Bool) (data : Ptr) (length : Nat) (key : Ptr)
    (canAllocate : Nat → Bool) (hk : strlen key = .ok 0) (ha : canAllocate length = true) :
    (encrypt s data length key canAllocate).1 = .ok [] := by
  rw [encrypt_fst, hk, ha]
  split_ifs <;> first | rfl | contradiction

theorem encrypt_allocationFailure (s : Bool) (data : Ptr) (length : Nat) (key : Ptr)
    (canAllocate : Nat → Bool) (hd : data ≠ none) (hl : length ≠ 0) (hk : key ≠ none)
    (ha : canAllocate length = false) :
    (encrypt s data length key canAllocate).1 = .error .allocationFailure := by
  rw [encrypt_fst, if_neg (by rintro (h | h); exact hd h; exact hl h), if_neg hk, ha]
  rfl

/-- C20 (cipher input validation, amended).  `encrypt` and `decrypt` return the empty vector
when the data pointer is null, the length is 0 or the key is null, and, provided the vector of
`length` bytes can be constructed, when the key is the empty string.  When the data pointer and
the key are not null, the length is not 0 and the vector cannot be constructed, they throw,
whatever the key.  For every other input, with a buffer that holds `length` bytes and a vector
that can be constructed, they return a vector of `length` bytes, which is not empty.  On no
input at all do they read through a null pointer or divide by zero: the remainder `i % keyLen`
is only taken with `keyLen > 0`. -/
theorem cipher_input_validation :
    (∀ (s : Bool) (data : Ptr) (length : Nat) (key : Ptr) (canAllocate : Nat → Bool),
      data = none ∨ length = 0 ∨ key = none →
      (encrypt s data length key canAllocate).1 = .ok [] ∧
        (decrypt s data length key canAllocate).1 = .ok []) ∧
      (∀ (s : Bool) (data : Ptr) (length : Nat) (key : Ptr) (canAllocate : Nat → Bool),
        strlen key = .ok 0 → canAllocate length = true →
        (encrypt s data length key canAllocate).1 = .ok [] ∧
          (decrypt s data length key canAllocate).1 = .ok []) ∧
      (∀ (s : Bool) (data : Ptr) (length : Nat) (key : Ptr) (canAllocate : Nat → Bool),
        data ≠ none → length ≠ 0 → key ≠ none → canAllocate length = false →
        (encrypt s data length key canAllocate).1 = .error .allocationFailure ∧
          (decrypt s data length key canAllocate).1 = .error .allocationFailure) ∧
      (∀ (s : Bool) (buf : List Nat) (length : Nat) (chars : List Nat) (keyLen : Nat)
          (canAllocate : Nat → Bool),
        0 < length → length ≤ buf.length → strlen (some chars) = .ok keyLen → 0 < keyLen →
        canAllocate length = true →
        ∃ v w : List Nat, (encrypt s (some buf) length (some chars) canAllocate).1 = .ok v ∧
          v.length = length ∧ v ≠ [] ∧
          (decrypt s (some buf) length (some chars) canAllocate).1 = .ok w ∧
          w.length = length ∧ w ≠ []) ∧
      (∀ (s : Bool) (data : Ptr) (length : Nat) (key : Ptr) (canAllocate : Nat → Bool),
        (encrypt s data length key canAllocate).1 ≠ .error .divisionByZero ∧
          (encrypt s data length key canAllocate).1 ≠ .error .nullDereference ∧
          (decrypt s data length key canAllocate).1 ≠ .error .divisionByZero ∧
          (decrypt s data length key canAllocate).1 ≠ .error .nullDereference) := by
  refine ⟨?_, ?_, ?_, ?_, ?_⟩
  · intro s data length key canAllocate h
    exact ⟨encrypt_guard s data length key canAllocate h,
      encrypt_guard s data length key canAllocate h⟩
  · intro s data length key canAllocate hk ha
    exact ⟨encrypt_empty_key s data length key canAllocate hk ha,
      encrypt_empty_key s data length key canAllocate hk ha⟩
  · intro s data length key canAllocate hd hl hk ha
    exact ⟨encrypt_allocationFailure s data length key canAllocate hd hl hk ha,
      encrypt_allocationFailure s data length key canAllocate hd hl hk ha⟩
  · intro s buf length chars keyLen canAllocate hlen hbuf hstr hk ha
    rw [strlen_some] at hstr
    have hk2 : 0 < (chars.takeWhile (fun c => c != 0)).length := by
      injection hstr with hstr
      omega
    have he := encrypt_ok s buf chars length canAllocate hlen hbuf hk2 ha
    have hne : ∀ v : List Nat, v.length = length → v ≠ [] := by
      intro v hv hnil
      rw [hnil] at hv
      simp at hv
      omega
    refine ⟨_, _, he, by simp, hne _ (by simp), he, by simp, hne _ (by simp)⟩
  · intro s data length key canAllocate
    rw [decrypt_eq_encrypt]
    rcases encrypt_faults s data length key canAllocate with ⟨v, hv⟩ | he | he
    · rw [hv]
      exact ⟨by simp, by simp, by simp, by simp⟩
    · rw [he]
      exact ⟨by simp, by simp, by simp, by simp⟩
    · rw [he]
      exact ⟨by simp, by simp, by simp, by simp⟩

/-- C20, at concrete inputs, with vectors of up to `2 ^ 63 - 1` bytes constructible: a null data
pointer, the length 0 and a null key each give the empty vector; the empty key gives the empty
vector at the length 3; the length `2 ^ 64 - 1` with the key "ab" makes both functions throw;
and the buffer `[1, 2, 3]` with the key "ab" gives three bytes. -/
theorem cipher_input_validation_witness :
    ((encrypt false none 3 (some [97, 98]) (fun n => decide (n ≤ 9223372036854775807))).1 =
          .ok [] ∧
        (decrypt false none 3 (some [97, 98]) (fun n => decide (n ≤ 9223372036854775807))).1 =
          .ok []) ∧
      ((encrypt false (some [1, 2, 3]) 0 (some [97, 98])
            (fun n => decide (n ≤ 9223372036854775807))).1 = .ok [] ∧
        (decrypt false (some [1, 2, 3]) 0 (some [97, 98])
            (fun n => decide (n ≤ 9223372036854775807))).1 = .ok []) ∧
      ((encrypt false (some [1, 2, 3]) 3 none (fun n => decide (n ≤ 9223372036854775807))).1 =
          .ok [] ∧
        (decrypt false (some [1, 2, 3]) 3 none (fun n => decide (n ≤ 9223372036854775807))).1 =
          .ok []) ∧
      (strlen (some []) = .ok 0 ∧ decide (3 ≤ 9223372036854775807) = true ∧
        (encrypt false (some [1, 2, 3]) 3 (some [])
            (fun n => decide (n ≤ 9223372036854775807))).1 = .ok [] ∧
        (decrypt false (some [1, 2, 3]) 3 (some [])
            (fun n => decide (n ≤ 9223372036854775807))).1 = .ok []) ∧
      ((encrypt false (some [1, 2, 3]) 18446744073709551615 (some [97, 98])
            (fun n => decide (n ≤ 9223372036854775807))).1 = .error .allocationFailure ∧
        (decrypt false (some [1, 2, 3]) 18446744073709551615 (some [97, 98])
            (fun n => decide (n ≤ 9223372036854775807))).1 = .error .allocationFailure) ∧
      ∃ v w : List Nat, (encrypt false (some [1, 2, 3]) 3 (some [97, 98])
            (fun n => decide (n ≤ 9223372036854775807))).1 = .ok v ∧
        v.length = 3 ∧ v ≠ [] ∧
        (decrypt false (some [1, 2, 3]) 3 (some [97, 98])
            (fun n => decide (n ≤ 9223372036854775807))).1 = .ok w ∧
        w.length = 3 ∧ w ≠ [] :=
  ⟨cipher_input_validation.1 false none 3 (some [97, 98]) _ (Or.inl rfl),
    cipher_input_validation.1 false (some [1, 2, 3]) 0 (some [97, 98]) _ (Or.inr (Or.inl rfl)),
    cipher_input_validation.1 false (some [1, 2, 3]) 3 none _ (Or.inr (Or.inr rfl)),
    ⟨rfl, by decide,
      cipher_input_validation.2.1 false (some [1, 2, 3]) 3 (some [])
        (fun n => decide (n ≤ 9223372036854775807)) rfl (by decide)⟩,
    cipher_input_validation.2.2.1 false (some [1, 2, 3]) 18446744073709551615 (some [97, 98])
      (fun n => decide (n ≤ 9223372036854775807)) (by simp) (by norm_num) (by simp) (by decide),
    cipher_input_validation.2.2.2.1 false [1, 2, 3] 3 [97, 98] 2
      (fun n => decide (n ≤ 9223372036854775807)) (by decide) (by decide) rfl (by decide)
      (by decide)⟩

/-- C20 as stated fails: with the empty key, the buffer `[1, 2, 3]` and the length
`2 ^ 64 - 1 = SIZE_MAX`, where vectors of up to `2 ^ 63 - 1` bytes can be constructed, the line
`std::vector<uint8_t> encrypted(length);` throws before the key is measured, so `encrypt` and
`decrypt` do not return the empty vector. -/
theorem cipher_input_validation_counterexample :
    strlen (some []) = .ok 0 ∧
      (encrypt false (some [1, 2, 3]) 18446744073709551615 (some [])
          (fun n => decide (n ≤ 9223372036854775807))).1 = .error .allocationFailure ∧
      (decrypt false (some [1, 2, 3]) 18446744073709551615 (some [])
          (fun n => decide (n ≤ 9223372036854775807))).1 = .error .allocationFailure ∧
      (encrypt false (some [1, 2, 3]) 18446744073709551615 (some [])
          (fun n => decide (n ≤ 9223372036854775807))).1 ≠ .ok [] ∧
      (decrypt false (some [1, 2, 3]) 18446744073709551615 (some [])
          (fun n => decide (n ≤ 9223372036854775807))).1 ≠ .ok [] := by
  have he : (encrypt false (some [1, 2, 3]) 18446744073709551615 (some [])
      (fun n => decide (n ≤ 9223372036854775807))).1 = .error .allocationFailure :=
    encrypt_allocationFailure false (some [1, 2, 3]) 18446744073709551615 (some []) _
      (by simp) (by norm_num) (by simp) (by decide)
  refine ⟨rfl, he, he, ?_, ?_⟩
  · rw [he]; simp
  · rw [decrypt_eq_encrypt, he]; simp

end CryptoEngine

/-! # The globals of `native-lib.cpp`: the proofs -/

namespace NativeLib

/-- C19 (the code at the claim).  When `GetJavaVM` succeeds and stores the JavaVM `1`, and
`NewGlobalRef` fails on the non-null context `5`, `nativeInitialize` returns early with the
globals changed: from `g_vm = nullptr, g_context = nullptr` it leaves `g_vm = 1`, and from
`g_vm = 1, g_context = 7` it leaves `g_context = nullptr`, the reference held before being
lost. -/
theorem nativeInitialize_changes_globals_on_failure :
    nativeInitialize ⟨JNI_OK, some (some 1)⟩ (fun _ => none) (some 5) ⟨none, none⟩ =
        ⟨some 1, none⟩ ∧
      nativeInitialize ⟨JNI_OK, some (some 1)⟩ (fun _ => none) (some 5) ⟨none, none⟩ ≠
        ⟨none, none⟩ ∧
      nativeInitialize ⟨JNI_OK, some (some 1)⟩ (fun _ => none) (some 5) ⟨some 1, some 7⟩ =
        ⟨some 1, none⟩ ∧
      nativeInitialize ⟨JNI_OK, some (some 1)⟩ (fun _ => none) (some 5) ⟨some 1, some 7⟩ ≠
        ⟨some 1, some 7⟩ := by
  decide

end NativeLib

/-! # Language identification: the reduced table, spaces and extension -/

namespace LanguageId

theorem firstMatch_reducedTable (text : List Nat) :
    firstMatch text ruleTable = firstMatch text reducedTable := by
  simp only [firstMatch, profileMatches, ruleTable, reducedTable, List.mem_cons,
    List.mem_singleton, List.not_mem_nil, or_false, exists_eq_or_imp, exists_eq_left]
  by_cases hla : markerMatches text "la"
  · simp [hla]
  by_cases hun : markerMatches text "un"
  · simp [hun]
  by_cases hcon : markerMatches text "con"
  · simp [hcon]
  by_cases huna : markerMatches text "una"
  · simp [huna]
  by_cases hque : markerMatches text "que"
  · simp [hque]
  by_cases hde : markerMatches text "de"
  · simp [hde]
  by_cases he : markerMatches text "e"
  · simp only [hla, hun, hcon, huna, hque, hde, he, or_false, false_or, or_true, true_or,
      if_true]
  · simp only [hla, hun, hcon, huna, hque, hde, he, or_false, false_or]

/-- C25 (redundant markers).  `nativeDetectLanguage` equals the classifier over the reduced
table, in which French lacks "la" and "un", Italian lacks "con", "un" and "una" and Portuguese
lacks "que", "e" and "de"; and every text in which "de", "que", "un", "una", "la" or "con"
matches is classified "es". -/
theorem reduced_table_refinement :
    (∀ (handle : Int) (text : List Nat),
      nativeDetectLanguage handle (.utf text) = classifyWith reducedTable text) ∧
      (∀ (handle : Int) (text : List Nat) (w : String),
        w ∈ ["de", "que", "un", "una", "la", "con"] → markerMatches text w →
        nativeDetectLanguage handle (.utf text) = "es") := by
  refine ⟨?_, ?_⟩
  · intro handle text
    simp only [nativeDetectLanguage, GetStringUTFChars, classifyWith,
      keywordResult_eq_firstMatch, firstMatch_reducedTable]
  · intro handle text w hw hm
    have hes : w ∈ ["el", "la", "de", "que", "es", "con", "y", "en", "un", "una"] := by
      simp only [List.mem_cons, List.mem_singleton, List.not_mem_nil, or_false] at hw
      rcases hw with rfl | rfl | rfl | rfl | rfl | rfl <;> decide
    exact detect_of_firstMatch handle text "es"
      (firstMatch_of_index text ruleTable 0
        ("es", ["el", "la", "de", "que", "es", "con", "y", "en", "un", "una"]) rfl
        ⟨w, hes, hm⟩ (fun j _ hj _ => absurd hj (Nat.not_lt_zero j)))

/-- C25, at the text "voici un chat": the marker "un", which the French profile of the full
table also holds, matches, and the result is "es". -/
theorem reduced_table_refinement_witness :
    markerMatches (cstr "voici un chat") "un" ∧
      nativeDetectLanguage 0 (.utf (cstr "voici un chat")) = "es" ∧
      classifyWith reducedTable (cstr "voici un chat") = "es" :=
  ⟨by decide,
    reduced_table_refinement.2 0 (cstr "voici un chat") "un" (by decide) (by decide),
    by decide⟩

theorem firstMatch_none_of_few_spaces (text : List Nat) (h : text.count 32 < 2) :
    firstMatch text ruleTable = none := by
  rw [firstMatch_eq_none_iff]
  intro p _ hm
  have h2 := two_spaces_of_profileMatches text p hm
  omega

/-- C26 (two spaces are required).  A text with fewer than two space bytes yields "en" or "mul",
never one of es, fr, de, it, pt: "el", "und" and "le chat" yield "en". -/
theorem two_spaces_required :
    (∀ (handle : Int) (text : List Nat), text.count 32 < 2 →
      (nativeDetectLanguage handle (.utf text) = "en" ∨
          nativeDetectLanguage handle (.utf text) = "mul") ∧
        nativeDetectLanguage handle (.utf text) ∉ ["es", "fr", "de", "it", "pt"]) ∧
      nativeDetectLanguage 0 (.utf (cstr "el")) = "en" ∧
      nativeDetectLanguage 0 (.utf (cstr "und")) = "en" ∧
      nativeDetectLanguage 0 (.utf (cstr "le chat")) = "en" := by
  refine ⟨?_, by decide, by decide, by decide⟩
  intro handle text h
  have hk : keywordResult (text.map tolower) = "en" := by
    rw [keywordResult_eq_firstMatch, firstMatch_none_of_few_spaces text h]
    rfl
  rcases detect_cases handle text with h1 | ⟨_, h1⟩
  · rw [h1, hk]
    exact ⟨Or.inl rfl, by decide⟩
  · rw [h1]
    exact ⟨Or.inr rfl, by decide⟩

/-- C26, at the text "le chat", which has one space byte: the result is "en". -/
theorem two_spaces_required_witness :
    (cstr "le chat").count 32 < 2 ∧
      (nativeDetectLanguage 0 (.utf (cstr "le chat")) = "en" ∨
        nativeDetectLanguage 0 (.utf (cstr "le chat")) = "mul") ∧
      nativeDetectLanguage 0 (.utf (cstr "le chat")) ∉ ["es", "fr", "de", "it", "pt"] :=
  ⟨by decide, two_spaces_required.1 0 (cstr "le chat") (by decide)⟩

theorem rank_le_five (code : String) : rank code ≤ 5 := by
  unfold rank
  split_ifs <;> omega

theorem rank_ruleTable (i : Nat) (p : String × List String) (hp : ruleTable[i]? = some p) :
    rank p.1 = i := by
  have hi : i < 5 := by
    by_contra hcon
    have : ruleTable[i]? = none := List.getElem?_eq_none (by simpa [ruleTable] using hcon)
    rw [this] at hp
    exact Option.noConfusion hp
  interval_cases i <;> simp only [ruleTable, List.getElem?_cons_zero,
    List.getElem?_cons_succ, Option.some.injEq] at hp <;> subst hp <;> decide

theorem markerMatches_extend (a t b : List Nat) (w : String) (h : markerMatches t w) :
    markerMatches (a ++ t ++ b) w := by
  unfold markerMatches occursSpaced at *
  rw [List.map_append, List.map_append]
  exact List.IsInfix.trans h ⟨a.map tolower, b.map tolower, rfl⟩

theorem profileMatches_extend (a t b : List Nat) (p : String × List String)
    (h : profileMatches t p) : profileMatches (a ++ t ++ b) p := by
  obtain ⟨w, hw, hm⟩ := h
  exact ⟨w, hw, markerMatches_extend a t b w hm⟩

theorem rank_extend (handle : Int) (a t b : List Nat) :
    rank (nativeDetectLanguage handle (.utf (a ++ t ++ b))) ≤
      rank (nativeDetectLanguage handle (.utf t)) := by
  rcases detect_cases handle t with h | ⟨_, h⟩
  · rw [h, keywordResult_eq_firstMatch]
    cases hfm : firstMatch t ruleTable with
    | none => exact rank_le_five _
    | some c =>
      obtain ⟨i, p, hp, hc, hm, -⟩ := firstMatch_some_elim t ruleTable c hfm
      have hm2 := profileMatches_extend a t b p hm
      cases hfm2 : firstMatch (a ++ t ++ b) ruleTable with
      | none =>
        exact absurd hm2
          ((firstMatch_eq_none_iff _ ruleTable).mp hfm2 p (List.getElem?_mem hp))
      | some c2 =>
        obtain ⟨j, q, hq, hc2, -, hfirst⟩ := firstMatch_some_elim _ ruleTable c2 hfm2
        have hji : j ≤ i := by
          by_contra hcon
          exact hfirst i p (by omega) hp hm2
        rw [detect_of_firstMatch handle _ c2 hfm2]
        show rank c2 ≤ rank c
        rw [← hc2, ← hc, rank_ruleTable j q hq, rank_ruleTable i p hp]
        exact hji
  · rw [h]
    exact rank_le_five _

theorem eq_es_of_rank (code : String) (h : rank code = 0) : code = "es" := by
  unfold rank at h
  split_ifs at h with h1
  · exact h1

/-- C27 (monotonicity under extension).  With the outcomes ranked es, fr, de, it, pt and then
"en" and "mul" together, the rank of the result on `a ++ t ++ b` is at most the rank of the
result on `t`; and when `t` yields "es", so does every text that contains `t`. -/
theorem extension_monotone :
    (∀ (handle : Int) (a t b : List Nat),
      rank (nativeDetectLanguage handle (.utf (a ++ t ++ b))) ≤
        rank (nativeDetectLanguage handle (.utf t))) ∧
      (∀ (handle : Int) (a t b : List Nat), nativeDetectLanguage handle (.utf t) = "es" →
        nativeDetectLanguage handle (.utf (a ++ t ++ b)) = "es") := by
  refine ⟨rank_extend, ?_⟩
  intro handle a t b h
  have hr := rank_extend handle a t b
  rw [h] at hr
  exact eq_es_of_rank _ (Nat.le_zero.mp hr)

/-- C27, at `t` = "ich und du" (German) between "yo y " and " fin": the extended text holds the
Spanish marker "y" and yields "es", whose rank is not higher; and `t` = " el " (Spanish) stays
Spanish inside "das ist el gato". -/
theorem extension_monotone_witness :
    nativeDetectLanguage 0 (.utf (cstr "ich und du")) = "de" ∧
      nativeDetectLanguage 0 (.utf (cstr "yo y " ++ cstr "ich und du" ++ cstr " fin")) = "es" ∧
      rank (nativeDetectLanguage 0 (.utf (cstr "yo y " ++ cstr "ich und du" ++ cstr " fin"))) ≤
        rank (nativeDetectLanguage 0 (.utf (cstr "ich und du"))) ∧
      nativeDetectLanguage 0 (.utf (cstr " el ")) = "es" ∧
      nativeDetectLanguage 0 (.utf (cstr "das ist" ++ cstr " el " ++ cstr "gato")) = "es" :=
  ⟨by decide, by decide,
    extension_monotone.1 0 (cstr "yo y ") (cstr "ich und du") (cstr " fin"),
    by decide,
    extension_monotone.2 0 (cstr "das ist") (cstr " el ") (cstr "gato") (by decide)⟩

end LanguageId

/-! # The cipher: the flag and the key generator -/

namespace CryptoEngine

theorem engineInitialize_eq (s : Bool) : engineInitialize s = (true, true) := by
  cases s <;> rfl

theorem flag_after (s : Bool) :
    (if (!s) = true then (engineInitialize s).2 else s) = true := by
  cases s <;> rfl

/-- C23 (initialize is idempotent and always succeeds).  From every value of the flag,
`CryptoEngine::initialize` returns `true` and leaves the flag set, and a second call returns
`true` and changes nothing; after `encrypt`, `decrypt`, `generateSecureKey` and
`verifyIntegrity` the flag is set, also when `encrypt` or `decrypt` returns the empty vector for
an invalid input. -/
theorem flag_always_set (s : Bool) :
    engineInitialize s = (true, true) ∧
      engineInitialize (engineInitialize s).2 = (true, (engineInitialize s).2) ∧
      (∀ (data : Ptr) (length : Nat) (key : Ptr),
        (encrypt s data length key).2 = true ∧ (decrypt s data length key).2 = true) ∧
      (∀ dis : Nat → Nat, (generateSecureKey s dis).2 = true) ∧
      (∀ (data : Ptr) (length : Nat) (signature : Ptr),
        (verifyIntegrity s data length signature).2 = true) ∧
      (encrypt s none 0 none = (.ok [], true) ∧ decrypt s none 0 none = (.ok [], true) ∧
        encrypt s (some [1]) 1 (some []) = (.ok [], true)) := by
  have henc : ∀ (data : Ptr) (length : Nat) (key : Ptr) (canAllocate : Nat → Bool),
      (encrypt s data length key canAllocate).2 = true := by
    intro data length key canAllocate
    unfold encrypt
    simp only [flag_after]
    split_ifs
    · rfl
    · rfl
    · rfl
    · cases strlen key with
      | error f => rfl
      | ok keyLen =>
        simp only
        split_ifs <;> rfl
  refine ⟨engineInitialize_eq s, by rw [engineInitialize_eq s, engineInitialize_eq true], ?_, ?_,
    ?_, ?_⟩
  · intro data length key
    exact ⟨henc data length key _, henc data length key (fun _ => true)⟩
  · intro dis
    exact flag_after s
  · intro data length signature
    exact flag_after s
  · cases s <;> exact ⟨rfl, rfl, rfl⟩

theorem chars_alnum : ∀ k, k < 62 → ∃ c, (LanguageId.cstr chars)[k]? = some c ∧ isAlnum c := by
  decide

theorem keyLoop_ok (dis : Nat → Nat) (i n : Nat) (h : ∀ j, i ≤ j → j < i + n → dis j ≤ 61) :
    ∃ key, keyLoop dis i n = .ok key ∧ key.length = n ∧ ∀ c ∈ key, isAlnum c := by
  induction n generalizing i with
  | zero => exact ⟨[], rfl, rfl, by simp⟩
  | succ n ih =>
    obtain ⟨rest, hrest, hlen, halnum⟩ := ih (i + 1) (fun j h1 h2 => h j (by omega) (by omega))
    obtain ⟨c, hc, hcal⟩ := chars_alnum (dis i) (by have := h i (le_refl i) (by omega); omega)
    have hload : load (some (LanguageId.cstr chars)) (dis i) = .ok c := by
      show (match (LanguageId.cstr chars)[dis i]? with
        | some b => Except.ok b
        | none => Except.error Fault.outOfBounds) = _
      rw [hc]
    refine ⟨c :: rest, ?_, by simp [hlen], ?_⟩
    · unfold keyLoop
      rw [hload]
      simp only
      rw [hrest]
    · intro x hx
      rcases List.mem_cons.mp hx with rfl | hx
      · exact hcal
      · exact halnum x hx

theorem alnum_ne_zero (c : Nat) (h : isAlnum c) : c ≠ 0 := by
  unfold isAlnum at h
  omega

/-- C24 (shape of the generated key).  Whatever the 32 values, all in `0..61`, that the random
source returns, `generateSecureKey` returns a key of exactly 32 characters, each an ASCII letter
or digit; the key is not empty, `strlen` of it is 32, and `encrypt` and `decrypt` accept it:
with it they turn every non-empty buffer into a vector of the same length. -/
theorem generated_key_shape (s : Bool) (dis : Nat → Nat) (h : ∀ i, i < 32 → dis i ≤ 61) :
    ∃ key : List Nat, (generateSecureKey s dis).1 = .ok key ∧ key.length = 32 ∧
      (∀ c ∈ key, isAlnum c) ∧ key ≠ [] ∧ strlen (some key) = .ok 32 ∧
      ∀ (s2 : Bool) (d : List Nat), d ≠ [] →
        (∃ v, (encrypt s2 (some d) d.length (some key)).1 = .ok v ∧ v.length = d.length) ∧
          ∃ v, (decrypt s2 (some d) d.length (some key)).1 = .ok v ∧ v.length = d.length := by
  obtain ⟨key, hkey, hlen, halnum⟩ := keyLoop_ok dis 0 32 (fun j _ h2 => h j (by omega))
  have htw : key.takeWhile (fun c => c != 0) = key :=
    takeWhile_nonzero key (fun c hc => alnum_ne_zero c (halnum c hc))
  have hne : key ≠ [] := by
    intro hnil
    rw [hnil] at hlen
    simp at hlen
  refine ⟨key, hkey, hlen, halnum, hne, by rw [strlen_some, htw, hlen], ?_⟩
  intro s2 d hd
  have hdl : 0 < d.length := List.length_pos.mpr hd
  have he := encrypt_ok s2 d key d.length (fun _ => true) hdl (le_refl _)
    (by rw [htw, hlen]; norm_num) rfl
  exact ⟨⟨_, he, by simp⟩, ⟨_, he, by simp⟩⟩

/-- C24, at the random source that returns `i` at the call of iteration `i`: the key is the
first 32 characters of `chars`, "ABCDEFGHIJKLMNOPQRSTUVWXYZabcdef". -/
theorem generated_key_shape_witness :
    (generateSecureKey false (fun i => i)).1 =
        .ok (LanguageId.cstr "ABCDEFGHIJKLMNOPQRSTUVWXYZabcdef") ∧
      ∃ key : List Nat, (generateSecureKey false (fun i => i)).1 = .ok key ∧ key.length = 32 ∧
        (∀ c ∈ key, isAlnum c) ∧ key ≠ [] ∧ strlen (some key) = .ok 32 ∧
        ∀ (s2 : Bool) (d : List Nat), d ≠ [] →
          (∃ v, (encrypt s2 (some d) d.length (some key)).1 = .ok v ∧ v.length = d.length) ∧
            ∃ v, (decrypt s2 (some d) d.length (some key)).1 = .ok v ∧ v.length = d.length :=
  ⟨rfl, generated_key_shape false (fun i => i) (fun i hi => by show i ≤ 61; omega)⟩

end CryptoEngine

/-! # The request dispatch: the proofs -/

namespace AuraFrameFx

theorem dispatch_eq (request : List Nat) :
    processNeuralRequest (.utf request) =
      if containsText request "consciousness" then some consciousnessResponse
      else if containsText request "memory" then some memoryResponse
      else some completeResponse := by
  unfold processNeuralRequest containsText
  simp only [LanguageId.GetStringUTFChars, LanguageId.find_ne_npos_iff]

/-- C21 (dispatch of `processNeuralRequest`).  For every request string the response is the
"consciousness_active" text when the request contains "consciousness", else the
"memory_optimized" text when it contains "memory", else the "processing_complete" text; it is
always one of these three fixed texts.  A request with both substrings gets the first, and the
match is case-sensitive: "Consciousness and MEMORY" gets the third. -/
theorem neural_dispatch :
    (∀ request : List Nat, ∃ response : String,
      processNeuralRequest (.utf request) = some response ∧
        (containsText request "consciousness" → response = consciousnessResponse) ∧
        (¬ containsText request "consciousness" → containsText request "memory" →
          response = memoryResponse) ∧
        (¬ containsText request "consciousness" → ¬ containsText request "memory" →
          response = completeResponse) ∧
        response ∈ [consciousnessResponse, memoryResponse, completeResponse]) ∧
      (hasStatus consciousnessResponse "consciousness_active" ∧
        hasStatus memoryResponse "memory_optimized" ∧
        hasStatus completeResponse "processing_complete") ∧
      (consciousnessResponse ≠ memoryResponse ∧ consciousnessResponse ≠ completeResponse ∧
        memoryResponse ≠ completeResponse) ∧
      processNeuralRequest (.utf (LanguageId.cstr "memory and consciousness")) =
        some consciousnessResponse ∧
      processNeuralRequest (.utf (LanguageId.cstr "Consciousness and MEMORY")) =
        some completeResponse := by
  refine ⟨?_, by decide, by decide, by rw [dispatch_eq, if_pos (by decide)],
    by rw [dispatch_eq, if_neg (by decide), if_neg (by decide)]⟩
  intro request
  rw [dispatch_eq]
  by_cases h1 : containsText request "consciousness"
  · rw [if_pos h1]
    exact ⟨_, rfl, fun _ => rfl, fun h => absurd h1 h, fun h => absurd h1 h,
      List.mem_cons_self _ _⟩
  · rw [if_neg h1]
    by_cases h2 : containsText request "memory"
    · rw [if_pos h2]
      exact ⟨_, rfl, fun h => absurd h h1, fun _ _ => rfl, fun _ h => absurd h2 h,
        List.mem_cons_of_mem _ (List.mem_cons_self _ _)⟩
    · rw [if_neg h2]
      exact ⟨_, rfl, fun h => absurd h h1, fun _ h => absurd h h2, fun _ _ => rfl,
        List.mem_cons_of_mem _ (List.mem_cons_of_mem _ (List.mem_cons_self _ _))⟩

/-- C21, at the request "optimize memory now": it contains "memory" and not "consciousness",
and the response is the "memory_optimized" text. -/
theorem neural_dispatch_witness :
    ¬ containsText (LanguageId.cstr "optimize memory now") "consciousness" ∧
      containsText (LanguageId.cstr "optimize memory now") "memory" ∧
      processNeuralRequest (.utf (LanguageId.cstr "optimize memory now")) =
        some memoryResponse ∧
      ∃ response : String,
        processNeuralRequest (.utf (LanguageId.cstr "optimize memory now")) = some response ∧
          (containsText (LanguageId.cstr "optimize memory now") "consciousness" →
            response = consciousnessResponse) ∧
          (¬ containsText (LanguageId.cstr "optimize memory now") "consciousness" →
            containsText (LanguageId.cstr "optimize memory now") "memory" →
            response = memoryResponse) ∧
          (¬ containsText (LanguageId.cstr "optimize memory now") "consciousness" →
            ¬ containsText (LanguageId.cstr "optimize memory now") "memory" →
            response = completeResponse) ∧
          response ∈ [consciousnessResponse, memoryResponse, completeResponse] :=
  ⟨by decide, by decide, by rw [dispatch_eq, if_neg (by decide), if_pos (by decide)],
    neural_dispatch.1 (LanguageId.cstr "optimize memory now")⟩

end AuraFrameFx

/-! # The service slot: the proofs -/

namespace CascadeAIService

theorem responses_distinct :
    notInitializedResponse ≠ successResponse ∧ notInitializedResponse ≠ invalidRequestResponse :=
  by decide

theorem processRequest_notInitialized_iff (request : LanguageId.JString) (g : Globals) :
    nativeProcessRequest request g = some notInitializedResponse ↔
      g.g_cascadeService = none := by
  unfold nativeProcessRequest
  cases hs : g.g_cascadeService with
  | none => simp
  | some service =>
    simp only [reduceCtorEq, iff_false]
    cases LanguageId.GetStringUTFChars request with
    | none =>
      simp only [Option.some.injEq]
      exact fun h => responses_distinct.2 h.symm
    | some requestStr =>
      simp only [Service.processRequest, Impl.processRequest]
      cases service.pImpl_ with
      | none => simp
      | some impl =>
        simp only [Option.some.injEq]
        exact fun h => responses_distinct.1 h.symm

theorem nativeInitialize_installed (env : InitEnv) (context : Option Nat) (g : Globals)
    (h : g.g_cascadeService ≠ none) : nativeInitialize env context g = (true, g) := by
  unfold nativeInitialize
  cases hs : g.g_cascadeService with
  | none => exact absurd hs h
  | some service => rfl

theorem nativeInitialize_result (env : InitEnv) (context : Option Nat) (g : Globals)
    (hinv : SlotInvariant g) :
    SlotInvariant (nativeInitialize env context g).2 ∧
      ((nativeInitialize env context g).1 = true ↔
        (nativeInitialize env context g).2.g_cascadeService ≠ none) := by
  unfold nativeInitialize
  cases hs : g.g_cascadeService with
  | some service =>
    simp only [hs, ne_eq, reduceCtorEq, not_false_eq_true, and_true]
    exact hinv
  | none =>
    cases hvm : env.getJavaVM with
    | failed stored =>
      cases stored with
      | none =>
        simp only [hs, ne_eq, not_true_eq_false, Bool.false_eq_true, and_true]
        exact hinv
      | some vm =>
        simp only [hs, ne_eq, not_true_eq_false, Bool.false_eq_true, and_true]
        intro service h
        exact Option.noConfusion h
    | ok vm =>
      simp only [Service.new, Service.initializeService]
      split_ifs with hfail
      · simp only [ne_eq, not_true_eq_false, Bool.false_eq_true, and_true]
        intro service h
        exact Option.noConfusion h
      · simp only [ne_eq, reduceCtorEq, not_false_eq_true, and_true]
        intro service h
        simp only [Option.some.injEq] at h
        rw [← h]
        simp

theorem nativeShutdown_eq (getEnvOk : Bool) (g : Globals) :
    nativeShutdown getEnvOk g = initial := by
  unfold nativeShutdown initial
  cases hs : g.g_cascadeService <;> cases hv : g.g_vm <;> simp [hs, hv]
  cases g
  simp_all

theorem slotInvariant_initial : SlotInvariant initial := by
  intro service h
  exact Option.noConfusion h

theorem slotInvariant_run (g : Globals) (hinv : SlotInvariant g) (history : List Call) :
    SlotInvariant (run g history) := by
  induction history generalizing g with
  | nil => exact hinv
  | cons c cs ih =>
    apply ih
    cases c with
    | nativeInitialize env context => exact (nativeInitialize_result env context g hinv).1
    | nativeShutdown getEnvOk =>
      show SlotInvariant (nativeShutdown getEnvOk g)
      rw [nativeShutdown_eq]
      exact slotInvariant_initial

theorem processRequest_installed (text : List Nat) (g : Globals) (hinv : SlotInvariant g)
    (h : g.g_cascadeService ≠ none) :
    nativeProcessRequest (.utf text) g = some successResponse := by
  unfold nativeProcessRequest
  cases hs : g.g_cascadeService with
  | none => exact absurd hs h
  | some service =>
    simp only [LanguageId.GetStringUTFChars, Service.processRequest, Impl.processRequest]
    cases hp : service.pImpl_ with
    | none => exact absurd hp (hinv service hs)
    | some impl => rfl

/-- C22 (lifecycle of the service slot).  In every state reached from the initial globals by
calls of `nativeInitialize` and `nativeShutdown`: `nativeProcessRequest` returns the "Service not
initialized" text exactly when the slot is empty; with a service in the slot it returns the fixed
success text for every request text, and `nativeInitialize` returns `true` and leaves the globals
as they are; `nativeInitialize` leaves a service in the slot exactly when it returns `true`, so
after a failed call the slot is empty; after `nativeShutdown` the slot and `g_vm` are both empty;
and the slot is empty at the start. -/
theorem cascade_lifecycle (history : List Call) :
    (∀ request : LanguageId.JString,
      nativeProcessRequest request (run initial history) = some notInitializedResponse ↔
        (run initial history).g_cascadeService = none) ∧
      ((run initial history).g_cascadeService ≠ none →
        (∀ text : List Nat,
          nativeProcessRequest (.utf text) (run initial history) = some successResponse) ∧
        ∀ (env : InitEnv) (context : Option Nat),
          nativeInitialize env context (run initial history) = (true, run initial history)) ∧
      (∀ (env : InitEnv) (context : Option Nat),
        ((nativeInitialize env context (run initial history)).1 = true ↔
          (nativeInitialize env context (run initial history)).2.g_cascadeService ≠ none) ∧
        ((nativeInitialize env context (run initial history)).1 = false →
          ∀ request : LanguageId.JString,
            nativeProcessRequest request (nativeInitialize env context (run initial history)).2 =
              some notInitializedResponse)) ∧
      (∀ getEnvOk : Bool,
        (nativeShutdown getEnvOk (run initial history)).g_cascadeService = none ∧
          (nativeShutdown getEnvOk (run initial history)).g_vm = none ∧
          ∀ request : LanguageId.JString,
            nativeProcessRequest request (nativeShutdown getEnvOk (run initial history)) =
              some notInitializedResponse) ∧
      (initial.g_cascadeService = none ∧
        ∀ request : LanguageId.JString,
          nativeProcessRequest request initial = some notInitializedResponse) := by
  have hinv := slotInvariant_run initial slotInvariant_initial history
  refine ⟨fun request => processRequest_notInitialized_iff request _, ?_, ?_, ?_, rfl,
    fun _ => rfl⟩
  · intro h
    exact ⟨fun text => processRequest_installed text _ hinv h,
      fun env context => nativeInitialize_installed env context _ h⟩
  · intro env context
    have hres := (nativeInitialize_result env context _ hinv).2
    refine ⟨hres, ?_⟩
    intro hfalse request
    rw [processRequest_notInitialized_iff]
    by_contra hne
    rw [hres.mpr hne] at hfalse
    exact Bool.noConfusion hfalse
  · intro getEnvOk
    rw [nativeShutdown_eq]
    exact ⟨rfl, rfl, fun _ => rfl⟩

/-- C22, along one history: after a successful `nativeInitialize` the slot holds a service, a
request gets the success text and a second `nativeInitialize` changes nothing; after a
`nativeInitialize` during which `GetEnv` fails, from the initial globals, the slot is empty and a
request gets the "Service not initialized" text. -/
theorem cascade_lifecycle_witness :
    (run initial [Call.nativeInitialize ⟨.ok 1, fun _ => some 9, true, fun _ => some 3⟩
        (some 5)]).g_cascadeService ≠ none ∧
      nativeProcessRequest (.utf (LanguageId.cstr "hi"))
          (run initial [Call.nativeInitialize ⟨.ok 1, fun _ => some 9, true, fun _ => some 3⟩
            (some 5)]) = some successResponse ∧
      nativeInitialize ⟨.failed none, fun _ => none, false, fun _ => none⟩ none
          (run initial [Call.nativeInitialize ⟨.ok 1, fun _ => some 9, true, fun _ => some 3⟩
            (some 5)]) =
        (true, run initial [Call.nativeInitialize ⟨.ok 1, fun _ => some 9, true,
          fun _ => some 3⟩ (some 5)]) ∧
      (nativeInitialize ⟨.ok 1, fun _ => some 9, false, fun _ => some 3⟩ (some 5)
          (run initial [])).1 = false ∧
      nativeProcessRequest (.utf (LanguageId.cstr "hi"))
          (nativeInitialize ⟨.ok 1, fun _ => some 9, false, fun _ => some 3⟩ (some 5)
            (run initial [])).2 = some notInitializedResponse :=
  ⟨by decide,
    ((cascade_lifecycle [Call.nativeInitialize ⟨.ok 1, fun _ => some 9, true, fun _ => some 3⟩
      (some 5)]).2.1 (by decide)).1 (LanguageId.cstr "hi"),
    ((cascade_lifecycle [Call.nativeInitialize ⟨.ok 1, fun _ => some 9, true, fun _ => some 3⟩
      (some 5)]).2.1 (by decide)).2 ⟨.failed none, fun _ => none, false, fun _ => none⟩ none,
    rfl,
    ((cascade_lifecycle []).2.2.1 ⟨.ok 1, fun _ => some 9, false, fun _ => some 3⟩
      (some 5)).2 rfl (.utf (LanguageId.cstr "hi"))⟩

end CascadeAIService
